import Mathlib

/-!
# octoReport: swap-history report pipeline

A shallow embedding of `octoReport.go` (package `octoReport`) and of the parts
of the Go standard library it drives (`strconv`, `time`, `math`, `fmt`,
`encoding/csv`), followed by theorems about the report pipeline.

Conventions of the embedding:

* a Go `string` is a list of characters (`Str`); the program only handles
  strings decoded by `encoding/json`, which are valid UTF-8, and every byte
  the CSV code looks for is ASCII, so scanning characters and scanning bytes
  agree;
* `int64` values are integers together with an explicit range check where the
  program performs one (`strconv.ParseInt`);
* `float64` values are the type `F64` of IEEE-754 binary64 numbers, every
  arithmetic operation rounding to nearest, ties to even;
* effects (clock, time zone, HTTP, JSON decoding, file system, the PDF canvas)
  are inputs collected in `Env`; a run of `CreateSwapHistory` is the list of
  the effects it performs together with the way it ends.

The theorems come after the definitions: first the pipeline (validation,
export, CSV round trip, failure paths, table layout), then magnitude bounds
for the `F64` operations, from which the amount normalisation and
`roundToDigits` are treated.
-/

namespace OctoReport

/-- A Go string. -/
abbrev Str := List Char

/-! ## Data model (`Token`, `Swap`, `Swaps`) -/

/-- Go `type Token struct`. -/
structure Token where
  Address : Str
  Name : Str
  Symbol : Str
  Amount : Str
deriving DecidableEq, Repr

/-- Go `type Swap struct`. -/
structure Swap where
  Receiver : Str
  TrxHash : Str
  ExecutedAt : Str
  ChainId : Int
  TokenIn : Token
  TokenOut : Token
deriving DecidableEq, Repr

/-- Go `type Swaps struct`. -/
structure Swaps where
  Swaps : List Swap
deriving DecidableEq, Repr

/-! ## Decimal digits -/

/-- The value of a decimal digit character, if it is one. -/
def digitVal (c : Char) : Option Nat :=
  if '0' ≤ c ∧ c ≤ '9' then some (c.toNat - 48) else none

/-- The character of a decimal digit `d < 10`. -/
def digitChar (d : Nat) : Char := Char.ofNat (48 + d % 10)

/-- Decimal digits of `n`, least significant first, at most `fuel` of them. -/
def digitsRev : Nat → Nat → List Char
  | 0, _ => []
  | fuel + 1, n => if n < 10 then [digitChar n] else digitChar (n % 10) :: digitsRev fuel (n / 10)

/-- Decimal representation of a natural number (`n + 1` digits of fuel always suffice). -/
def natToStr (n : Nat) : Str := (digitsRev (n + 1) n).reverse

/-- Left-pad with `'0'` up to `width` characters. -/
def padZero (width : Nat) (s : Str) : Str := List.replicate (width - s.length) '0' ++ s

/-- Go `time.appendInt(b, x, width)`: sign, then the digits zero-padded to `width`. -/
def appendInt (x : Int) (width : Nat) : Str :=
  if x < 0 then '-' :: padZero width (natToStr x.natAbs) else padZero width (natToStr x.natAbs)

/-! ## `strconv.ParseInt(s, 10, 64)` -/

/-- Value of a non-empty string of decimal digits (`strconv.ParseUint` with base 10: no
underscores, no prefix), without its range check. -/
def parseDigits : Str → Option Nat
  | [] => none
  | cs => cs.foldl (fun acc c => match acc, digitVal c with
      | some a, some d => some (a * 10 + d)
      | _, _ => none) (some 0)

/-- Go `strconv.ParseInt(s, 10, 64)`; `none` stands for a non-nil error (syntax or range). -/
def ParseInt (s : Str) : Option Int :=
  match s with
  | [] => none
  | '+' :: rest =>
    match parseDigits rest with
    | some n => if n < 2 ^ 63 then some (n : Int) else none
    | none => none
  | '-' :: rest =>
    match parseDigits rest with
    | some n => if n ≤ 2 ^ 63 then some (-(n : Int)) else none
    | none => none
  | _ =>
    match parseDigits s with
    | some n => if n < 2 ^ 63 then some (n : Int) else none
    | none => none

/-! ## Package `time` -/

/-- A `time.Time`: seconds since the Unix epoch and nanoseconds within the second. -/
structure Time where
  sec : Int
  nsec : Nat
deriving DecidableEq, Repr

/-- Go `time.Unix(sec, 0)`. -/
def timeUnix (sec : Int) : Time := ⟨sec, 0⟩

/-- Go `Time.abs`: seconds since January 1 of the absolute zero year (−292277022399), as a
`uint64`, in the zone whose offset at this instant is `offset`. -/
def absSeconds (offset : Int) (t : Time) : Nat :=
  ((t.sec + offset + 9223372028715321600) % (2 ^ 64 : Int)).toNat

/-- Go `time.isLeap`. -/
def isLeap (year : Int) : Bool := year % 4 = 0 ∧ (year % 100 ≠ 0 ∨ year % 400 = 0)

/-- Go `time.daysBefore`. -/
def daysBefore : List Nat := [0, 31, 59, 90, 120, 151, 181, 212, 243, 273, 304, 334, 365]

/-- Go `time.absDate(abs, true)`: year, month (1-12) and day of the month. -/
def absDate (abs : Nat) : Int × Nat × Nat :=
  let d := abs / 86400
  let n := d / 146097
  let y := 400 * n
  let d := d - 146097 * n
  let n := d / 36524
  let n := n - n / 4
  let y := y + 100 * n
  let d := d - 36524 * n
  let n := d / 1461
  let y := y + 4 * n
  let d := d - 1461 * n
  let n := d / 365
  let n := n - n / 4
  let y := y + n
  let d := d - 365 * n
  let year : Int := (y : Int) + (-292277022399)
  let day := d
  if isLeap year ∧ day = 31 + 29 - 1 then (year, 2, 29)
  else
    let day := if isLeap year ∧ day > 31 + 29 - 1 then day - 1 else day
    let month := day / 31
    let stop := daysBefore.getD (month + 1) 0
    if day ≥ stop then (year, month + 2, day - stop + 1)
    else (year, month + 1, day - daysBefore.getD month 0 + 1)

/-- Go `time.absWeekday`: 0 is Sunday. -/
def absWeekday (abs : Nat) : Nat := ((abs + 86400) % 604800) / 86400

def shortDayNames : List Str :=
  ["Sun".toList, "Mon".toList, "Tue".toList, "Wed".toList, "Thu".toList, "Fri".toList,
   "Sat".toList]

def shortMonthNames : List Str :=
  ["Jan".toList, "Feb".toList, "Mar".toList, "Apr".toList, "May".toList, "Jun".toList,
   "Jul".toList, "Aug".toList, "Sep".toList, "Oct".toList, "Nov".toList, "Dec".toList]

/-- Go `t.Format("2006-01-02")` in a zone with the given offset at `t`. -/
def formatDate (offset : Int) (t : Time) : Str :=
  let (year, month, day) := absDate (absSeconds offset t)
  appendInt year 4 ++ ['-'] ++ appendInt month 2 ++ ['-'] ++ appendInt day 2

/-- Go `t.Format("2006-01-02 15:04")` in a zone with the given offset at `t`. -/
def formatDateTime (offset : Int) (t : Time) : Str :=
  let abs := absSeconds offset t
  let secs := abs % 86400
  formatDate offset t ++ [' '] ++ appendInt (secs / 3600 : Nat) 2 ++ [':']
    ++ appendInt ((secs % 3600) / 60 : Nat) 2

/-- Go `t.Format("Mon Jan 2, 2006")` in a zone with the given offset at `t`. -/
def formatLongDate (offset : Int) (t : Time) : Str :=
  let abs := absSeconds offset t
  let (year, month, day) := absDate abs
  shortDayNames.getD (absWeekday abs) [] ++ [' '] ++ shortMonthNames.getD (month - 1) [] ++ [' ']
    ++ appendInt day 0 ++ [',', ' '] ++ appendInt year 4

/-! ## `float64`: IEEE-754 binary64 -/

/-- A `float64`. A finite value is `(-1)^neg * m * 2^e`, kept in the canonical form of the
binary64 encoding: `m < 2^53`, `-1074 ≤ e ≤ 971`, and `2^52 ≤ m` unless `e = -1074`
(subnormals and the two zeros). NaN payloads are not distinguished. -/
inductive F64 where
  | nan
  | inf (neg : Bool)
  | fin (neg : Bool) (m : Nat) (e : Int)
deriving DecidableEq, Repr

namespace F64

/-- The least `j ≥ k` with `n < 2^(2^j)`, searched upwards in at most `fuel` steps. -/
def log2Level : Nat → Nat → Nat → Nat
  | 0, k, _ => k
  | fuel + 1, k, n => if n < 2 ^ 2 ^ k then k else log2Level fuel (k + 1) n

/-- The integer `floor (log2 n)` of an `n < 2^(2^k)`, one binary digit of the result per
level. -/
def log2Desc : Nat → Nat → Nat
  | 0, _ => 0
  | k + 1, n => if 2 ^ 2 ^ k ≤ n then log2Desc k (n / 2 ^ 2 ^ k) + 2 ^ k else log2Desc k n

/-- The integer `floor (log2 n)` (0 for `n = 0`). -/
def log2 (n : Nat) : Nat := log2Desc (log2Level n 0 n) n

/-- The integer `floor (log2 (n / d))` for positive `n` and `d`. -/
def ratLog2 (n d : Nat) : Int :=
  let k : Int := (log2 n : Int) - (log2 d : Int)
  if 0 ≤ k then (if d * 2 ^ k.toNat ≤ n then k else k - 1)
  else (if d ≤ n * 2 ^ (-k).toNat then k else k - 1)

/-- The integer nearest to `num / den` (`den > 0`), ties to the even one. -/
def divRoundEven (num den : Nat) : Nat :=
  if den < 2 * (num % den) ∨ (2 * (num % den) = den ∧ (num / den) % 2 = 1) then num / den + 1
  else num / den

/-- The binary64 nearest to `(-1)^neg * n / d` (`d > 0`), ties to even; overflow gives an
infinity, underflow a subnormal or a zero of the same sign. -/
def round (neg : Bool) (n d : Nat) : F64 :=
  if n = 0 then fin neg 0 (-1074)
  else
    let e : Int := max (ratLog2 n d - 52) (-1074)
    let q := divRoundEven (if e < 0 then n * 2 ^ (-e).toNat else n)
      (if e < 0 then d else d * 2 ^ e.toNat)
    if q = 2 ^ 53 then (if 971 < e + 1 then inf neg else fin neg (2 ^ 52) (e + 1))
    else (if 971 < e then inf neg else fin neg q e)

/-- The binary64 nearest to `(-1)^neg * m * 2^e`. -/
def ofScaled (neg : Bool) (m : Nat) (e : Int) : F64 :=
  if 0 ≤ e then round neg (m * 2 ^ e.toNat) 1 else round neg m (2 ^ (-e).toNat)

/-- The binary64 nearest to `(-1)^neg * n * 10^e`: the value of a decimal literal. -/
def ofDecimal (neg : Bool) (n : Nat) (e : Int) : F64 :=
  if 0 ≤ e then round neg (n * 10 ^ e.toNat) 1 else round neg n (10 ^ (-e).toNat)

/-- Conversion `float64(n)` of an integer. -/
def ofInt (n : Int) : F64 := round (decide (n < 0)) n.natAbs 1

def zero : F64 := fin false 0 (-1074)

def one : F64 := ofInt 1

/-- A finite value as an integer multiple of `2^-1074`. -/
def scaled (neg : Bool) (m : Nat) (e : Int) : Int :=
  if neg then -((m * 2 ^ (e + 1074).toNat : Nat) : Int) else ((m * 2 ^ (e + 1074).toNat : Nat) : Int)

def isNaN : F64 → Bool
  | nan => true
  | _ => false

/-- Go `x == y` on `float64`. -/
def eq : F64 → F64 → Bool
  | nan, _ => false
  | _, nan => false
  | inf a, inf b => a == b
  | inf _, fin _ _ _ => false
  | fin _ _ _, inf _ => false
  | fin a m e, fin b n f => scaled a m e == scaled b n f

/-- Go `x < y` on `float64`. -/
def lt : F64 → F64 → Bool
  | nan, _ => false
  | _, nan => false
  | inf a, inf b => a && !b
  | inf a, fin _ _ _ => a
  | fin _ _ _, inf b => !b
  | fin a m e, fin b n f => decide (scaled a m e < scaled b n f)

/-- Go unary `-x`. -/
def neg : F64 → F64
  | nan => nan
  | inf a => inf (!a)
  | fin a m e => fin (!a) m e

/-- Go `math.Abs`. -/
def Abs : F64 → F64
  | nan => nan
  | inf _ => inf false
  | fin _ m e => fin false m e

/-- Go `x + y` on `float64`. -/
def add : F64 → F64 → F64
  | nan, _ => nan
  | _, nan => nan
  | inf a, inf b => if a = b then inf a else nan
  | inf a, fin _ _ _ => inf a
  | fin _ _ _, inf b => inf b
  | fin a m e, fin b n f =>
    let g := min e f
    let s : Int := (if a then -1 else 1) * ((m * 2 ^ (e - g).toNat : Nat) : Int)
      + (if b then -1 else 1) * ((n * 2 ^ (f - g).toNat : Nat) : Int)
    if s = 0 then fin (a && b) 0 (-1074) else ofScaled (decide (s < 0)) s.natAbs g

/-- Go `x - y` on `float64`. -/
def sub (x y : F64) : F64 := add x (neg y)

/-- Go `x * y` on `float64`. -/
def mul : F64 → F64 → F64
  | nan, _ => nan
  | _, nan => nan
  | inf a, inf b => inf (a != b)
  | inf a, fin b n _ => if n = 0 then nan else inf (a != b)
  | fin a m _, inf b => if m = 0 then nan else inf (a != b)
  | fin a m e, fin b n f => ofScaled (a != b) (m * n) (e + f)

/-- Go `x / y` on `float64`. -/
def div : F64 → F64 → F64
  | nan, _ => nan
  | _, nan => nan
  | inf _, inf _ => nan
  | inf a, fin b _ _ => inf (a != b)
  | fin a _ _, inf b => fin (a != b) 0 (-1074)
  | fin a m e, fin b n f =>
    if n = 0 then (if m = 0 then nan else inf (a != b))
    else if e ≤ f then round (a != b) m (n * 2 ^ (f - e).toNat)
    else round (a != b) (m * 2 ^ (e - f).toNat) n

/-- Go `math.Floor`. -/
def Floor : F64 → F64
  | nan => nan
  | inf a => inf a
  | fin a m e =>
    if 0 ≤ e then fin a m e
    else
      let q := m / 2 ^ (-e).toNat
      let r := m % 2 ^ (-e).toNat
      if a then round true (if r = 0 then q else q + 1) 1 else round false q 1

/-- Go `math.Round`: nearest integer, halves away from zero, the sign kept. -/
def Round : F64 → F64
  | nan => nan
  | inf a => inf a
  | fin a m e =>
    if 0 ≤ e then fin a m e
    else
      let q := m / 2 ^ (-e).toNat
      let r := m % 2 ^ (-e).toNat
      round a (if 2 ^ (-e).toNat ≤ 2 * r then q + 1 else q) 1

/-- Go `math.Frexp`: `f = frac * 2^exp` with `1/2 ≤ |frac| < 1`; zeros, infinities and NaN
come back unchanged with exponent 0. -/
def Frexp : F64 → F64 × Int
  | nan => (nan, 0)
  | inf a => (inf a, 0)
  | fin a m e =>
    if m = 0 then (fin a m e, 0)
    else
      let l := log2 m + 1
      (fin a (m * 2 ^ (53 - l)) (-53), e + l)

/-- Go `math.Ldexp`: `frac * 2^exp`. -/
def Ldexp (frac : F64) (exp : Int) : F64 :=
  match frac with
  | nan => nan
  | inf a => inf a
  | fin a m e => if m = 0 then fin a m e else ofScaled a m (e + exp)

/-! ### `math.Log`, `math.Log2`, `math.Log10` (portable Go implementation) -/

/-- Go `math.Log` (`log.go`): argument reduction by `Frexp` and the degree-14 polynomial of
FreeBSD `e_log.c`, every operation in binary64. -/
def Log (x : F64) : F64 :=
  match x with
  | nan => nan
  | inf false => inf false
  | inf true => nan
  | fin a m e =>
    if m = 0 then inf true
    else if a then nan
    else
      let Ln2Hi := ofDecimal false 693147180369123816490 (-21)
      let Ln2Lo := ofDecimal false 190821492927058770002 (-30)
      let L1 := ofDecimal false 6666666666666735130 (-19)
      let L2 := ofDecimal false 3999999999940941908 (-19)
      let L3 := ofDecimal false 2857142874366239149 (-19)
      let L4 := ofDecimal false 2222219843214978396 (-19)
      let L5 := ofDecimal false 1818357216161805012 (-19)
      let L6 := ofDecimal false 1531383769920937332 (-19)
      let L7 := ofDecimal false 1479819860511658591 (-19)
      let halfSqrt2 := ofDecimal false 70710678118654752440084436210484903928483593768847 (-50)
      let (f1, ki) := Frexp (fin a m e)
      let small := lt f1 halfSqrt2
      let f1 := if small then mul f1 (ofInt 2) else f1
      let ki := if small then ki - 1 else ki
      let f := sub f1 one
      let k := ofInt ki
      let s := div f (add (ofInt 2) f)
      let s2 := mul s s
      let s4 := mul s2 s2
      let t1 := mul s2 (add L1 (mul s4 (add L3 (mul s4 (add L5 (mul s4 L7))))))
      let t2 := mul s4 (add L2 (mul s4 (add L4 (mul s4 L6))))
      let R := add t1 t2
      let hfsq := mul (mul (ofDecimal false 5 (-1)) f) f
      sub (mul k Ln2Hi) (sub (sub hfsq (add (mul s (add hfsq R)) (mul k Ln2Lo))) f)

/-- Go `math.Log2` (`log10.go`): exact on powers of two. -/
def Log2 (x : F64) : F64 :=
  let (frac, exp) := Frexp x
  if eq frac (ofDecimal false 5 (-1)) then ofInt (exp - 1)
  else
    add (mul (Log frac) (round false (10 ^ 36) 693147180559945309417232121458176568)) (ofInt exp)

/-- Go `math.Log10` (`log10.go`): `math.Log2(x) * (Ln2 / Ln10)`. -/
def Log10 (x : F64) : F64 :=
  mul (Log2 x)
    (round false 693147180559945309417232121458176568 (10 * 230258509299404568401799145468436421))

/-! ### `math.Pow(10, y)` -/

/-- The squaring loop of Go `math.Pow`: `i` is the integer exponent still to process, the
answer so far is `a1 * 2^ae`, the current power of the base `x1 * 2^xe`. -/
def powLoop : Nat → Nat → F64 → Int → F64 → Int → F64 × Int
  | 0, _, a1, ae, _, _ => (a1, ae)
  | fuel + 1, i, a1, ae, x1, xe =>
    if i = 0 then (a1, ae)
    else if xe < -4096 ∨ 4096 < xe then (a1, ae + xe)
    else
      let a1n := if i % 2 = 1 then mul a1 x1 else a1
      let aen := if i % 2 = 1 then ae + xe else ae
      let x1n := mul x1 x1
      let xen := 2 * xe
      let low := lt x1n (ofDecimal false 5 (-1))
      powLoop fuel (i / 2) a1n aen (if low then add x1n x1n else x1n) (if low then xen - 1 else xen)

/-- Go `math.Pow(10, y)` for the exponents `roundToDigits` can pass, which are NaN, infinite
or integer-valued (a float64 difference of integer-valued terms). The branch of `math.Pow`
for a fractional exponent (`Exp(yf * Log(x))`, `Sqrt`) is never reached from this program and
is not part of the embedding: such a `y` is given NaN here. -/
def Pow10 (y : F64) : F64 :=
  match y with
  | nan => nan
  | inf a => if a then zero else inf false
  | fin a m e =>
    if m = 0 then one
    else if eq (fin a m e) one then ofInt 10
    else if e < 0 ∧ m % 2 ^ (-e).toNat ≠ 0 then nan
    else if 0 ≤ e ∧ 2 ^ 63 ≤ m * 2 ^ e.toNat then (if a then zero else inf false)
    else
      let yi : Nat := if 0 ≤ e then m * 2 ^ e.toNat else m / 2 ^ (-e).toNat
      let (x1, xe) := Frexp (ofInt 10)
      let (a1, ae) := powLoop 64 yi one 0 x1 xe
      if a then Ldexp (div one a1) (-ae) else Ldexp a1 ae

/-! ### `strconv.ParseFloat(s, 64)` -/

/-- ASCII lower-casing of `A`-`Z`. -/
def lowerASCII (c : Char) : Char :=
  if 'A' ≤ c ∧ c ≤ 'Z' then Char.ofNat (c.toNat + 32) else c

/-- Go `strconv.commonPrefixLenIgnoreCase`; the second argument is lower case. -/
def commonPrefixLenIgnoreCase : Str → Str → Nat
  | c :: s, p :: pre => if lowerASCII c = p then 1 + commonPrefixLenIgnoreCase s pre else 0
  | _, _ => 0

/-- Go `strconv.special`: `inf`, `infinity` (optionally signed) and `nan`, any case; the
value and the number of characters consumed. -/
def special (s : Str) : Option (F64 × Nat) :=
  match s with
  | [] => none
  | c :: rest =>
    if c = '+' ∨ c = '-' then
      let n := commonPrefixLenIgnoreCase rest "infinity".toList
      let n := if 3 < n ∧ n < 8 then 3 else n
      if n = 3 ∨ n = 8 then some (inf (decide (c = '-')), 1 + n) else none
    else if c = 'i' ∨ c = 'I' then
      let n := commonPrefixLenIgnoreCase s "infinity".toList
      let n := if 3 < n ∧ n < 8 then 3 else n
      if n = 3 ∨ n = 8 then some (inf false, n) else none
    else if c = 'n' ∨ c = 'N' then
      if commonPrefixLenIgnoreCase s "nan".toList = 3 then some (nan, 3) else none
    else none

/-- Value of a hexadecimal letter digit `a`-`f` / `A`-`F`. -/
def hexLetterVal (c : Char) : Option Nat :=
  if 'a' ≤ c ∧ c ≤ 'f' then some (c.toNat - 87)
  else if 'A' ≤ c ∧ c ≤ 'F' then some (c.toNat - 55)
  else none

/-- The variables of Go `strconv.readFloat` while it scans the digits of the mantissa;
`full` additionally keeps every significant decimal digit, which is what the
arbitrary-precision path of `atof64` rounds. -/
structure Mant where
  mantissa : Nat
  full : Nat
  trunc : Bool
  sawdot : Bool
  sawdigits : Bool
  nd : Nat
  ndMant : Nat
  dp : Int
  underscores : Bool
deriving DecidableEq, Repr

/-- The digit loop of `readFloat`; returns the variables and the unread rest. -/
def readMant (hex : Bool) : Mant → Str → Mant × Str
  | st, [] => (st, [])
  | st, c :: cs =>
    if c = '_' then readMant hex { st with underscores := true } cs
    else if c = '.' then
      if st.sawdot then (st, c :: cs)
      else readMant hex { st with sawdot := true, dp := st.nd } cs
    else
      match digitVal c with
      | some d =>
        if c = '0' ∧ st.nd = 0 then
          readMant hex { st with sawdigits := true, dp := st.dp - 1 } cs
        else if st.ndMant < (if hex then 16 else 19) then
          readMant hex ⟨st.mantissa * (if hex then 16 else 10) + d, st.full * 10 + d, st.trunc,
            st.sawdot, true, st.nd + 1, st.ndMant + 1, st.dp, st.underscores⟩ cs
        else
          readMant hex ⟨st.mantissa, st.full * 10 + d, st.trunc || decide (c ≠ '0'),
            st.sawdot, true, st.nd + 1, st.ndMant, st.dp, st.underscores⟩ cs
      | none =>
        match (if hex then hexLetterVal c else none) with
        | some d =>
          if st.ndMant < 16 then
            readMant hex ⟨st.mantissa * 16 + d, st.full, st.trunc,
              st.sawdot, true, st.nd + 1, st.ndMant + 1, st.dp, st.underscores⟩ cs
          else
            readMant hex ⟨st.mantissa, st.full, true,
              st.sawdot, true, st.nd + 1, st.ndMant, st.dp, st.underscores⟩ cs
        | none => (st, c :: cs)

/-- The exponent digits of `readFloat`: the value saturates once it has reached 10000;
returns the value, whether an underscore was seen, and the unread rest. -/
def readExp : Nat → Bool → Str → Nat × Bool × Str
  | e, u, [] => (e, u, [])
  | e, u, c :: cs =>
    if c = '_' then readExp e true cs
    else
      match digitVal c with
      | some d => readExp (if e < 10000 then e * 10 + d else e) u cs
      | none => (e, u, c :: cs)

/-- Go `strconv.underscoreOK`, as a scan carrying the class of the last character seen
(`'^'` start, `'0'` digit or base prefix, `'_'` underscore, `'!'` anything else). -/
def underscoreScan (hex : Bool) : Char → Str → Bool
  | saw, [] => saw ≠ '_'
  | saw, c :: cs =>
    if (digitVal c).isSome ∨ (hex ∧ (hexLetterVal c).isSome) then underscoreScan hex '0' cs
    else if c = '_' then (if saw ≠ '0' then false else underscoreScan hex '_' cs)
    else if saw = '_' then false
    else underscoreScan hex '!' cs

/-- Go `strconv.underscoreOK`. -/
def underscoreOK (s : Str) : Bool :=
  let s := match s with
    | '-' :: r => r
    | '+' :: r => r
    | _ => s
  match s with
  | '0' :: b :: r =>
    if lowerASCII b = 'b' ∨ lowerASCII b = 'o' ∨ lowerASCII b = 'x' then
      underscoreScan (lowerASCII b = 'x') '0' r
    else underscoreScan false '^' s
  | _ => underscoreScan false '^' s

/-- Go `strconv.ParseFloat(s, 64)`: `none` stands for a non-nil error (syntax, or range when
the nearest binary64 is infinite). Decimal input is rounded correctly from all its digits;
hexadecimal input keeps 16 digits and a sticky bit, as `atofHex` does. -/
def ParseFloat (s : Str) : Option F64 :=
  match special s with
  | some (v, n) => if n = s.length then some v else none
  | none =>
    let neg := decide (s.head? = some '-')
    let body := match s with
      | '+' :: r => r
      | '-' :: r => r
      | _ => s
    let hex := match body with
      | '0' :: x :: _ :: _ => decide (lowerASCII x = 'x')
      | _ => false
    let digits := if hex then body.drop 2 else body
    let (st, rest) := readMant hex ⟨0, 0, false, false, false, 0, 0, 0, false⟩ digits
    if ¬ st.sawdigits then none
    else
      let dp : Int := if st.sawdot then st.dp else st.nd
      let dp := if hex then dp * 4 else dp
      let ndMant : Int := if hex then st.ndMant * 4 else st.ndMant
      let expChar := if hex then 'p' else 'e'
      let tail : Option (Int × Bool × Str) :=
        match rest with
        | c :: r =>
          if lowerASCII c = expChar then
            let esign : Int := if r.head? = some '-' then -1 else 1
            let r := match r with
              | '+' :: r1 => r1
              | '-' :: r1 => r1
              | _ => r
            match r with
            | d :: _ =>
              if (digitVal d).isSome then
                let (e, u, r2) := readExp 0 false r
                some (dp + e * esign, u, r2)
              else none
            | [] => none
          else if hex then none
          else some (dp, false, rest)
        | [] => if hex then none else some (dp, false, [])
      match tail with
      | none => none
      | some (dp, u, rest) =>
        if (st.underscores ∨ u) ∧ ¬ underscoreOK s then none
        else if rest ≠ [] then none
        else
          let v :=
            if hex then ofScaled neg (if st.trunc then st.mantissa ||| 1 else st.mantissa) (dp - ndMant)
            else ofDecimal neg st.full (dp - st.nd)
          match v with
          | inf _ => none
          | _ => some v

/-! ### `fmt.Sprintf("%.2f", x)` -/

/-- Go `fmt.Sprintf("%.2f", x)`: the exact binary value rounded to two decimals, ties to
even; NaN and the infinities print as `NaN`, `+Inf`, `-Inf`. -/
def Sprintf2f : F64 → Str
  | nan => "NaN".toList
  | inf a => if a then "-Inf".toList else "+Inf".toList
  | fin a m e =>
    let q := divRoundEven (if 0 ≤ e then m * 100 * 2 ^ e.toNat else m * 100)
      (if 0 ≤ e then 1 else 2 ^ (-e).toNat)
    (if a then ['-'] else []) ++ natToStr (q / 100) ++ ['.'] ++ padZero 2 (natToStr (q % 100))

/-! ### The value of a `float64`, for stating bounds -/

/-- The rational value of a finite `float64` (0 for NaN and the infinities). -/
def toRat : F64 → ℚ
  | fin neg m e => (if neg then -1 else 1) * ((m : ℚ) * (2 : ℚ) ^ e)
  | _ => 0

/-- The value is finite and at most `2^j` in magnitude. -/
def Bdd (x : F64) (j : Int) : Prop :=
  ∃ neg m e, x = fin neg m e ∧ (m : ℚ) * (2 : ℚ) ^ e ≤ (2 : ℚ) ^ j

end F64

/-! ## `roundToDigits` -/

/-- Go `roundToDigits(input float64, significantDigits int) float64`. -/
def roundToDigits (input : F64) (significantDigits : Int) : F64 :=
  if F64.eq input F64.zero then F64.zero
  else
    let d := F64.sub (F64.sub (F64.ofInt significantDigits)
      (F64.Floor (F64.Log10 (F64.Abs input)))) F64.one
    F64.div (F64.Round (F64.mul input (F64.Pow10 d))) (F64.Pow10 d)

/-! ## Package `encoding/csv` (default `Writer` and `Reader`: comma `','`, no CRLF, no
comments, strict quotes, `FieldsPerRecord = 0`) -/

/-- Go `unicode.IsSpace`. -/
def isSpace (c : Char) : Bool :=
  let n := c.toNat
  (9 ≤ n ∧ n ≤ 13) ∨ n = 0x20 ∨ n = 0x85 ∨ n = 0xA0 ∨ n = 0x1680 ∨ (0x2000 ≤ n ∧ n ≤ 0x200A)
    ∨ n = 0x2028 ∨ n = 0x2029 ∨ n = 0x202F ∨ n = 0x205F ∨ n = 0x3000

/-- Go `(*csv.Writer).fieldNeedsQuotes`. -/
def fieldNeedsQuotes (field : Str) : Bool :=
  match field with
  | [] => false
  | c :: _ =>
    if field = ['\\', '.'] then true
    else if field.any (fun x => x = '\n' ∨ x = '\r' ∨ x = '"' ∨ x = ',') then true
    else isSpace c

/-- The body of a quoted field as `(*csv.Writer).Write` emits it: quotes doubled, carriage
returns and line feeds kept. -/
def writeQuoted : Str → Str
  | [] => []
  | c :: cs => if c = '"' then '"' :: '"' :: writeQuoted cs else c :: writeQuoted cs

/-- One field as `(*csv.Writer).Write` emits it. -/
def writeField (field : Str) : Str :=
  if fieldNeedsQuotes field then '"' :: (writeQuoted field ++ ['"']) else field

/-- The bytes `(*csv.Writer).Write(record)` appends to the output. -/
def csvWrite (record : List Str) : Str :=
  List.intercalate [','] (record.map writeField) ++ ['\n']

/-- The bytes written by a sequence of `Write` calls followed by `Flush`. -/
def csvWriteAll (records : List (List Str)) : Str :=
  (records.map csvWrite).flatten

/-- Split at the first occurrence of `d`: the text before it and, if `d` occurs, the text
after it (`bytes.IndexByte` / `bytes.IndexRune` followed by slicing). -/
def splitAtChar (d : Char) : Str → Str × Option Str
  | [] => ([], none)
  | c :: cs =>
    if c = d then ([], some cs)
    else ((c :: (splitAtChar d cs).1), (splitAtChar d cs).2)

/-- Drop one trailing carriage return. -/
def dropLastCR (l : Str) : Str := if l.getLast? = some '\r' then l.dropLast else l

/-- Go `(*csv.Reader).readLine`: the next line (with its `'\n'`, a preceding `'\r'` removed; a
final line without `'\n'` loses a trailing `'\r'`), the unread input, and whether the call
returned `io.EOF`. -/
def readLine (input : Str) : Str × Str × Bool :=
  match splitAtChar '\n' input with
  | (l, some rest) => (dropLastCR l ++ ['\n'], rest, false)
  | (l, none) => if l = [] then ([], [], true) else (dropLastCR l, [], false)

/-- The errors of `encoding/csv`. -/
inductive CsvError where
  | ErrBareQuote
  | ErrQuote
  | ErrFieldCount
deriving DecidableEq, Repr

deriving instance DecidableEq for Except

/-- Result of `(*csv.Reader).readRecord`. -/
inductive Record where
  | eof
  | error (e : CsvError)
  | ok (fields : List Str) (rest : Str)
deriving DecidableEq, Repr

/-- The `parseField` loop of `(*csv.Reader).readRecord`. `quoted` is `none` at the start of a
field and `some buf` inside a quoted field whose content so far is `buf`; `line` is the unread
part of the current line, `rest` the input after it, `acc` the fields completed so far. Each
step consumes input, so `line.length + rest.length + 1` steps of fuel always suffice. -/
def parseFields : Nat → Option Str → Str → Str → List Str → Record
  | 0, _, _, _, _ => Record.error CsvError.ErrQuote
  | fuel + 1, none, line, rest, acc =>
    match line with
    | '"' :: l => parseFields fuel (some []) l rest acc
    | _ =>
      match splitAtChar ',' line with
      | (field, some l) =>
        if '"' ∈ field then Record.error CsvError.ErrBareQuote
        else parseFields fuel none l rest (acc ++ [field])
      | (_, none) =>
        let field := if line.getLast? = some '\n' then line.dropLast else line
        if '"' ∈ field then Record.error CsvError.ErrBareQuote
        else Record.ok (acc ++ [field]) rest
  | fuel + 1, some buf, line, rest, acc =>
    match splitAtChar '"' line with
    | (pre, some l) =>
      match l with
      | '"' :: l2 => parseFields fuel (some (buf ++ pre ++ ['"'])) l2 rest acc
      | ',' :: l2 => parseFields fuel none l2 rest (acc ++ [buf ++ pre])
      | _ =>
        if l = [] ∨ l = ['\n'] then Record.ok (acc ++ [buf ++ pre]) rest
        else Record.error CsvError.ErrQuote
    | (_, none) =>
      if line ≠ [] then
        parseFields fuel (some (buf ++ line)) (readLine rest).1 (readLine rest).2.1 acc
      else Record.error CsvError.ErrQuote

/-- Go `(*csv.Reader).readRecord` without the field-count check: skips empty lines, then
parses one record. Every skipped line consumes input, so `input.length + 1` steps of
fuel always suffice. -/
def readRecord : Nat → Str → Record
  | 0, _ => Record.eof
  | fuel + 1, input =>
    match readLine input with
    | (_, _, true) => Record.eof
    | (line, rest, false) =>
      if line = [] ∨ line = ['\n'] then readRecord fuel rest
      else parseFields (line.length + rest.length + 1) none line rest []

/-- The loop of Go `(*csv.Reader).ReadAll`; `fieldsPerRecord` is `Reader.FieldsPerRecord`
(0 until the first record sets it). -/
def readAllLoop : Nat → Nat → Str → List (List Str) → Except CsvError (List (List Str))
  | 0, _, _, acc => Except.ok acc
  | fuel + 1, fieldsPerRecord, input, acc =>
    match readRecord (input.length + 1) input with
    | Record.eof => Except.ok acc
    | Record.error e => Except.error e
    | Record.ok fields rest =>
      if 0 < fieldsPerRecord ∧ fields.length ≠ fieldsPerRecord then
        Except.error CsvError.ErrFieldCount
      else
        readAllLoop fuel (if fieldsPerRecord = 0 then fields.length else fieldsPerRecord) rest
          (acc ++ [fields])

/-- Go `csv.NewReader(f).ReadAll()` on a file with the given content; every record consumes
input, so `input.length + 1` iterations always suffice. -/
def ReadAll (input : Str) : Except CsvError (List (List Str)) :=
  readAllLoop (input.length + 1) 0 input []

/-! ## The PDF canvas (`gofpdf.Fpdf`)

The rendering backend is an opaque canvas: a document is the sequence of method calls made
on it, in order. Lengths are the integer literals of the source. -/

/-- A method call on `*gofpdf.Fpdf`, with its arguments. -/
inductive PdfCall where
  | New (orientationStr unitStr sizeStr fontDirStr : Str)
  | AddPage
  | SetFont (familyStr styleStr : Str) (size : Int)
  | Cell (w h : Int) (txtStr : Str)
  | Ln (h : Int)
  | SetFillColor (r g b : Nat)
  | CellFormat (w h : Int) (txtStr borderStr : Str) (ln : Int) (alignStr : Str) (fill : Bool)
      (link : Int) (linkStr : Str)
  | ImageOptions (imageNameStr : Str) (x y w h : Int) (flow : Bool) (imageType : Str)
      (readDpi : Bool) (link : Int) (linkStr : Str)
  | OutputFileAndClose (fileStr : Str)
deriving DecidableEq, Repr

/-- A `*gofpdf.Fpdf`: the calls made on it so far. -/
abbrev Fpdf := List PdfCall

/-- Calls made by a function that can stop with a run-time panic, and whether it ran to its
end. -/
structure Drawn where
  pdf : Fpdf
  completed : Bool
deriving DecidableEq, Repr

/-! ## The environment and the trace of a run -/

/-- What `http.Get` followed by `io.ReadAll(resp.Body)` can give. -/
inductive HttpResult where
  | transportError
  | response (status : Nat) (body : Option Str)
deriving DecidableEq, Repr

/-- The outside world of one run. -/
structure Env where
  /-- The successive readings of `time.Now()`. -/
  clock : Nat → Time
  /-- Offset of the local time zone, in seconds east of UTC, at a Unix time. -/
  zone : Int → Int
  /-- The answer of `http.Get(url)`; the body is `none` when reading it fails. -/
  httpGet : Str → HttpResult
  /-- The effect of `json.Unmarshal(body, &swaps)` on a zero `Swaps`: the value left in `swaps` and
  whether the returned error is nil. -/
  jsonUnmarshal : Str → Swaps × Bool
  /-- Whether `os.Create(path)` succeeds. -/
  osCreate : Str → Bool
  /-- The files present before the run. -/
  files : Str → Option Str
  /-- The value of `pdf.Err()` after the given calls. -/
  pdfErr : Fpdf → Bool
  /-- Whether `pdf.OutputFileAndClose(path)` succeeds after the given calls. -/
  outputOk : Fpdf → Str → Bool

/-- The places where the program calls `log.Fatal`, `log.Fatalf` or `log.Fatalln`. -/
inductive Fatal where
  | wrongAddressLength
  | cannotOpen
  | cannotReadCSV
  | failedCreatingPDF
  | cannotSavePDF
deriving DecidableEq, Repr

/-- An observable effect of a run. -/
inductive Event where
  /-- Program text written with `fmt.Printf`. -/
  | printf (text : Str)
  /-- An error value written with `fmt.Println(err)`. -/
  | printlnErr
  /-- The call `http.Get(url)`. -/
  | httpGet (url : Str)
  /-- The call `os.Create(path)`. -/
  | osCreate (path : Str)
  /-- The call `writer.Write(record)`. -/
  | csvWrite (record : List Str)
  /-- The deferred `writer.Flush()` and `file.Close()`: the file now has this content. -/
  | flushClose (path : Str) (content : Str)
  /-- The call `os.Open(path)`. -/
  | osOpen (path : Str)
  /-- A call on the PDF canvas. -/
  | pdf (call : PdfCall)
  /-- The check `pdf.Err()`. -/
  | pdfErrCheck
  /-- The message of a `log.Fatal*` call; the process exits with status 1 right after. -/
  | logFatal (site : Fatal)
deriving DecidableEq, Repr

/-- How a run ends. -/
inductive Outcome where
  | returned
  | exited (site : Fatal)
  | panicIndexOutOfRange
deriving DecidableEq, Repr

/-- A run: its effects in order and its end. -/
structure Run where
  trace : List Event
  outcome : Outcome
deriving DecidableEq, Repr

/-- Go `len(s)` of a string: its length in bytes (UTF-8). -/
def goLen (s : Str) : Nat := (s.map Char.utf8Size).sum

/-! ## `octoReport.go` -/

/-- The header record written by `createCsv`. -/
def csvHeader : List Str :=
  ["Time".toList, "Sold Token".toList, "Sold Amount".toList, "Bought Token".toList,
   "Bought Amount".toList]

/-- The loop of `createCsv` over `swaps.Swaps`: the records passed to `writer.Write`, and
whether the loop ran to its end (`false`: it returned at a parse error). -/
def createCsvLoop (zone : Int → Int) : List Swap → List (List Str) × Bool
  | [] => ([], true)
  | swap :: rest =>
    match F64.ParseFloat swap.TokenIn.Amount with
    | none => ([], false)
    | some tokenInAmount =>
      match F64.ParseFloat swap.TokenOut.Amount with
      | none => ([], false)
      | some tokenOutAmount =>
        let tokenInAmount := F64.div tokenInAmount (F64.ofDecimal false 1 18)
        let tokenOutAmount := F64.div tokenOutAmount (F64.ofDecimal false 1 18)
        match ParseInt swap.ExecutedAt with
        | none => ([], false)
        | some executedAtInt =>
          let executedAtTime := timeUnix executedAtInt
          let executedAtStr := formatDateTime (zone executedAtInt) executedAtTime
          let record := [executedAtStr, swap.TokenIn.Symbol,
            F64.Sprintf2f (roundToDigits tokenInAmount 6), swap.TokenOut.Symbol,
            F64.Sprintf2f (roundToDigits tokenOutAmount 6)]
          (record :: (createCsvLoop zone rest).1, (createCsvLoop zone rest).2)

/-- Go `createCsv(swaps, filenameCsv)`: its effects, and the content of the file when
`os.Create` succeeded. -/
def createCsv (env : Env) (swaps : Swaps) (filenameCsv : Str) : List Event × Option Str :=
  if ¬ env.osCreate filenameCsv then
    ([Event.osCreate filenameCsv, Event.printlnErr], none)
  else
    let body := createCsvLoop env.zone swaps.Swaps
    let records := csvHeader :: body.1
    ([Event.osCreate filenameCsv] ++ records.map Event.csvWrite
        ++ (if body.2 then [] else [Event.printlnErr])
        ++ [Event.flushClose filenameCsv (csvWriteAll records)],
      some (csvWriteAll records))

/-- The URL `getSwapHistory` requests. -/
def historyURL (address : Str) : Str :=
  "https://api.octodefi.dev/trades/history?wallet=".toList ++ address

/-- Go `getSwapHistory(address)`: its effects and the value of the named result `swaps`. -/
def getSwapHistory (env : Env) (address : Str) : List Event × Swaps :=
  match env.httpGet (historyURL address) with
  | HttpResult.transportError =>
    ([Event.httpGet (historyURL address), Event.printlnErr], ⟨[]⟩)
  | HttpResult.response _ none =>
    ([Event.httpGet (historyURL address), Event.printlnErr], ⟨[]⟩)
  | HttpResult.response _ (some body) =>
    if (env.jsonUnmarshal body).2 then
      ([Event.httpGet (historyURL address)], (env.jsonUnmarshal body).1)
    else ([Event.httpGet (historyURL address), Event.printlnErr], (env.jsonUnmarshal body).1)

/-- Go `loadCSV(path)` on a file system where `path` holds `file` (`none`: it cannot be
opened): its effects, and the rows or the fatal exit. -/
def loadCSV (file : Option Str) (path : Str) : List Event × Except Fatal (List (List Str)) :=
  match file with
  | none => ([Event.osOpen path, Event.logFatal Fatal.cannotOpen], Except.error Fatal.cannotOpen)
  | some content =>
    match ReadAll content with
    | Except.error _ =>
      ([Event.osOpen path, Event.logFatal Fatal.cannotReadCSV], Except.error Fatal.cannotReadCSV)
    | Except.ok rows => ([Event.osOpen path], Except.ok rows)

/-- Go `newReport()`; `now` is the reading of `time.Now()` for the subtitle. -/
def newReport (offset : Int) (now : Time) : Fpdf :=
  [PdfCall.New "L".toList "mm".toList "Letter".toList [],
   PdfCall.AddPage,
   PdfCall.SetFont "Times".toList "B".toList 28,
   PdfCall.Cell 40 10 "Swap History".toList,
   PdfCall.Ln 12,
   PdfCall.SetFont "Times".toList [] 20,
   PdfCall.Cell 40 10 (formatLongDate offset now),
   PdfCall.Ln 20]

/-- Go `header(pdf, hdr)`. -/
def header (pdf : Fpdf) (hdr : List Str) : Fpdf :=
  pdf ++ [PdfCall.SetFont "Times".toList "B".toList 16, PdfCall.SetFillColor 240 240 240]
    ++ hdr.map (fun str => PdfCall.CellFormat 44 7 str "1".toList 0 [] true 0 [])
    ++ [PdfCall.Ln (-1)]

/-- The slice `align` of `table`. -/
def align : List Str := ["L".toList, "C".toList, "L".toList, "C".toList, "L".toList]

/-- The inner loop of `table` (`for i, str := range line`), from index `i` on: `align[i]`
panics once `i` is out of range. -/
def tableLine (pdf : Fpdf) : Nat → List Str → Drawn
  | _, [] => ⟨pdf, true⟩
  | i, str :: rest =>
    match align.get? i with
    | none => ⟨pdf, false⟩
    | some a => tableLine (pdf ++ [PdfCall.CellFormat 44 7 str "1".toList 0 a false 0 []]) (i + 1) rest

/-- The outer loop of `table` (`for _, line := range tbl`). -/
def tableLines (pdf : Fpdf) : List (List Str) → Drawn
  | [] => ⟨pdf, true⟩
  | line :: rest =>
    if (tableLine pdf 0 line).completed then
      tableLines ((tableLine pdf 0 line).pdf ++ [PdfCall.Ln (-1)]) rest
    else tableLine pdf 0 line

/-- Go `table(pdf, tbl)`. -/
def table (pdf : Fpdf) (tbl : List (List Str)) : Drawn :=
  tableLines (pdf ++ [PdfCall.SetFont "Times".toList [] 16, PdfCall.SetFillColor 255 255 255]) tbl

/-- Go `image(pdf)`. -/
def image (pdf : Fpdf) : Fpdf :=
  pdf ++ [PdfCall.ImageOptions "assets/octodefi_logo.png".toList 220 10 27 22 false "PNG".toList
    true 0 []]

/-- Go `savePDF(pdf, filenamePdf)`: the call made on the canvas, and whether the returned
error is nil. -/
def savePDF (env : Env) (pdf : Fpdf) (filenamePdf : Str) : Event × Bool :=
  (Event.pdf (PdfCall.OutputFileAndClose filenamePdf), env.outputOk pdf filenamePdf)

/-- The time window of `CreateSwapHistory` (`timeFrom`, `timeTo`); `now` is the reading of
`time.Now()` taken when `timestampTo` is 0. -/
def resolveWindow (now : Time) (timestampFrom timestampTo : Int) : Time × Time :=
  (timeUnix timestampFrom, if 0 = timestampTo then now else timeUnix timestampTo)

/-- The rendering and saving part of `CreateSwapHistory`, from `newReport()` on; `k` is the
number of clock readings taken before. -/
def renderAndSave (env : Env) (k : Nat) (data : List (List Str)) (filenamePdf : Str) : Run :=
  let pdf := newReport (env.zone (env.clock k).sec) (env.clock k)
  match data with
  | [] => ⟨pdf.map Event.pdf, Outcome.panicIndexOutOfRange⟩
  | hdr :: body =>
    let pdf := header pdf hdr
    let drawn := table pdf body
    if ¬ drawn.completed then ⟨drawn.pdf.map Event.pdf, Outcome.panicIndexOutOfRange⟩
    else
      let pdf := image drawn.pdf
      if env.pdfErr pdf then
        ⟨pdf.map Event.pdf ++ [Event.pdfErrCheck, Event.logFatal Fatal.failedCreatingPDF],
          Outcome.exited Fatal.failedCreatingPDF⟩
      else if (savePDF env pdf filenamePdf).2 then
        ⟨pdf.map Event.pdf ++ [Event.pdfErrCheck, (savePDF env pdf filenamePdf).1],
          Outcome.returned⟩
      else
        ⟨pdf.map Event.pdf ++ [Event.pdfErrCheck, (savePDF env pdf filenamePdf).1,
            Event.logFatal Fatal.cannotSavePDF],
          Outcome.exited Fatal.cannotSavePDF⟩

/-- Go `CreateSwapHistory(address, name, timestampFrom, timestampTo)`. -/
def CreateSwapHistory (env : Env) (address name : Str) (timestampFrom timestampTo : Int) : Run :=
  if goLen address ≠ 42 then
    ⟨[Event.logFatal Fatal.wrongAddressLength], Outcome.exited Fatal.wrongAddressLength⟩
  else
    let window := resolveWindow (env.clock 0) timestampFrom timestampTo
    let k := if 0 = timestampTo then 1 else 0
    let banner := Event.printf ("Creating Swap history. address: ".toList ++ address
      ++ ", name: ".toList ++ name
      ++ ", from: ".toList ++ formatDate (env.zone window.1.sec) window.1
      ++ ", to: ".toList ++ formatDate (env.zone window.2.sec) window.2 ++ ['\n'])
    let currentTime := env.clock k
    let dateString := formatDate (env.zone currentTime.sec) currentTime
    let filenameCsv := "out/swaps/".toList ++ dateString ++ ['_'] ++ name ++ ".csv".toList
    let filenamePdf := "out/swaps/".toList ++ dateString ++ ['_'] ++ name ++ ".pdf".toList
    let fetched := getSwapHistory env address
    let written := createCsv env fetched.2 filenameCsv
    let file := match written.2 with
      | some content => some content
      | none => env.files filenameCsv
    let loaded := loadCSV file filenameCsv
    match loaded.2 with
    | Except.error site => ⟨banner :: (fetched.1 ++ written.1 ++ loaded.1), Outcome.exited site⟩
    | Except.ok data =>
      let rest := renderAndSave env (k + 1) data filenamePdf
      ⟨banner :: (fetched.1 ++ written.1 ++ loaded.1 ++ rest.trace), rest.outcome⟩

/-! ## Observations on traces, and sample inputs -/

/-- The event is a call to the data source. -/
def isFetch : Event → Bool
  | Event.httpGet _ => true
  | _ => false

/-- The canvas call emits a table cell (`CellFormat`). -/
def isCell : PdfCall → Bool
  | PdfCall.CellFormat _ _ _ _ _ _ _ _ _ => true
  | _ => false

/-- The canvas call is a line advance (`Ln`). -/
def isLn : PdfCall → Bool
  | PdfCall.Ln _ => true
  | _ => false

/-- The record of a `writer.Write` event. -/
def writtenRecord : Event → Option (List Str)
  | Event.csvWrite record => some record
  | _ => none

/-- The field contains no delimiter, no quote, no carriage return and no line feed. -/
def plainField (field : Str) : Prop :=
  ∀ c ∈ field, c ≠ ',' ∧ c ≠ '"' ∧ c ≠ '\r' ∧ c ≠ '\n'

/-- The end-to-end swap of the specification: 2 ETH sold for 4 USDC at 1700000000. -/
def sampleSwap : Swap :=
  ⟨[], [], "1700000000".toList, 1,
    ⟨[], "Ether".toList, "ETH".toList, "2000000000000000000".toList⟩,
    ⟨[], "USD Coin".toList, "USDC".toList, "4000000000000000000".toList⟩⟩

/-- A 42-byte wallet address. -/
def sampleAddress : Str := "0x52908400098527886E0F7030069857D2E4169EE7".toList

/-- A world in UTC at 2023-11-14 22:13:20 whose data source answers `200` with a body that
decodes to `swaps`, and whose file system and canvas never fail. -/
def sampleEnv (swaps : Swaps) : Env where
  clock := fun _ => ⟨1700000000, 0⟩
  zone := fun _ => 0
  httpGet := fun _ => HttpResult.response 200 (some "{}".toList)
  jsonUnmarshal := fun _ => (swaps, true)
  osCreate := fun _ => true
  files := fun _ => none
  pdfErr := fun _ => false
  outputOk := fun _ _ => true

/-- The same world with the data source unreachable. -/
def offlineEnv : Env where
  clock := fun _ => ⟨1700000000, 0⟩
  zone := fun _ => 0
  httpGet := fun _ => HttpResult.transportError
  jsonUnmarshal := fun _ => (⟨[]⟩, true)
  osCreate := fun _ => true
  files := fun _ => none
  pdfErr := fun _ => false
  outputOk := fun _ _ => true

theorem filter_isFetch_map_pdf (calls : List PdfCall) :
    (calls.map Event.pdf).filter isFetch = [] := by
  induction calls with
  | nil => rfl
  | cons c cs ih => simp [List.filter, isFetch, ih]

theorem filter_isFetch_map_csvWrite (records : List (List Str)) :
    (records.map Event.csvWrite).filter isFetch = [] := by
  induction records with
  | nil => rfl
  | cons c cs ih => simp [List.filter, isFetch, ih]

theorem filter_isFetch_getSwapHistory (env : Env) (address : Str) :
    (getSwapHistory env address).1.filter isFetch = [Event.httpGet (historyURL address)] := by
  unfold getSwapHistory
  split
  · simp [List.filter, isFetch]
  · simp [List.filter, isFetch]
  · split <;> simp [List.filter, isFetch]

theorem filter_isFetch_createCsv (env : Env) (swaps : Swaps) (path : Str) :
    (createCsv env swaps path).1.filter isFetch = [] := by
  unfold createCsv
  by_cases h : env.osCreate path = true
  · by_cases h2 : (createCsvLoop env.zone swaps.Swaps).2 = true <;>
      simp [h, h2, List.filter_append, filter_isFetch_map_csvWrite, List.filter, isFetch]
  · simp [h, List.filter, isFetch]

theorem filter_isFetch_loadCSV (file : Option Str) (path : Str) :
    (loadCSV file path).1.filter isFetch = [] := by
  unfold loadCSV
  split
  · simp [List.filter, isFetch]
  · split <;> simp [List.filter, isFetch]

theorem filter_isFetch_renderAndSave (env : Env) (k : Nat) (data : List (List Str)) (path : Str) :
    (renderAndSave env k data path).trace.filter isFetch = [] := by
  unfold renderAndSave
  cases data with
  | nil => simp [filter_isFetch_map_pdf]
  | cons hdr body =>
    simp only []
    split
    · simp [filter_isFetch_map_pdf]
    · split
      · simp [List.filter_append, filter_isFetch_map_pdf, List.filter, isFetch]
      · split <;>
          simp [List.filter_append, filter_isFetch_map_pdf, List.filter, isFetch, savePDF]

theorem mem_getSwapHistory (env : Env) (address : Str) (e : Event)
    (h : e ∈ (getSwapHistory env address).1) :
    e = Event.httpGet (historyURL address) ∨ e = Event.printlnErr := by
  unfold getSwapHistory at h
  split at h
  · simpa using h
  · simpa using h
  · split at h
    · left; simpa using h
    · simpa using h

theorem mem_createCsv (env : Env) (swaps : Swaps) (path : Str) (e : Event)
    (h : e ∈ (createCsv env swaps path).1) :
    e = Event.osCreate path ∨ (∃ r, e = Event.csvWrite r) ∨ e = Event.printlnErr
      ∨ ∃ c, e = Event.flushClose path c := by
  unfold createCsv at h
  split at h
  · simp at h
    rcases h with h | h
    · exact Or.inl h
    · exact Or.inr (Or.inr (Or.inl h))
  · simp only [List.mem_append, List.mem_map, List.mem_singleton] at h
    rcases h with ((h | ⟨r, _, h⟩) | h) | h
    · exact Or.inl h
    · exact Or.inr (Or.inl ⟨r, h.symm⟩)
    · split at h
      · simp at h
      · exact Or.inr (Or.inr (Or.inl (by simpa using h)))
    · exact Or.inr (Or.inr (Or.inr ⟨_, h⟩))

theorem mem_loadCSV (file : Option Str) (path : Str) (e : Event)
    (h : e ∈ (loadCSV file path).1) :
    e = Event.osOpen path ∨ e = Event.logFatal Fatal.cannotOpen
      ∨ e = Event.logFatal Fatal.cannotReadCSV := by
  unfold loadCSV at h
  split at h
  · simp at h
    rcases h with h | h
    · exact Or.inl h
    · exact Or.inr (Or.inl h)
  · split at h
    · simp at h
      rcases h with h | h
      · exact Or.inl h
      · exact Or.inr (Or.inr h)
    · left; simpa using h

theorem loadCSV_error_site (file : Option Str) (path : Str) (site : Fatal)
    (h : (loadCSV file path).2 = Except.error site) :
    site = Fatal.cannotOpen ∨ site = Fatal.cannotReadCSV := by
  unfold loadCSV at h
  split at h
  · simp at h
    exact Or.inl h.symm
  · split at h
    · simp at h
      exact Or.inr h.symm
    · simp at h

theorem mem_renderAndSave (env : Env) (k : Nat) (data : List (List Str)) (path : Str)
    (e : Event) (h : e ∈ (renderAndSave env k data path).trace) :
    (∃ c, e = Event.pdf c) ∨ e = Event.pdfErrCheck
      ∨ e = Event.logFatal Fatal.failedCreatingPDF ∨ e = Event.logFatal Fatal.cannotSavePDF := by
  unfold renderAndSave at h
  split at h
  · simp only [List.mem_map] at h
    obtain ⟨c, _, hc⟩ := h
    exact Or.inl ⟨c, hc.symm⟩
  · simp only [] at h
    split at h
    · simp only [List.mem_map] at h
      obtain ⟨c, _, hc⟩ := h
      exact Or.inl ⟨c, hc.symm⟩
    · split at h
      · simp only [List.mem_append, List.mem_map, List.mem_cons, List.mem_singleton,
          List.not_mem_nil, or_false] at h
        rcases h with ⟨c, _, hc⟩ | h | h
        · exact Or.inl ⟨c, hc.symm⟩
        · exact Or.inr (Or.inl h)
        · exact Or.inr (Or.inr (Or.inl h))
      · split at h
        · simp only [List.mem_append, List.mem_map, List.mem_cons, List.mem_singleton,
            List.not_mem_nil, or_false, savePDF] at h
          rcases h with ⟨c, _, hc⟩ | h | h
          · exact Or.inl ⟨c, hc.symm⟩
          · exact Or.inr (Or.inl h)
          · exact Or.inl ⟨_, h⟩
        · simp only [List.mem_append, List.mem_map, List.mem_cons, List.mem_singleton,
            List.not_mem_nil, or_false, savePDF] at h
          rcases h with ⟨c, _, hc⟩ | h | h | h
          · exact Or.inl ⟨c, hc.symm⟩
          · exact Or.inr (Or.inl h)
          · exact Or.inl ⟨_, h⟩
          · exact Or.inr (Or.inr (Or.inr h))

theorem renderAndSave_outcome (env : Env) (k : Nat) (data : List (List Str)) (path : Str) :
    (renderAndSave env k data path).outcome ≠ Outcome.exited Fatal.wrongAddressLength := by
  unfold renderAndSave
  split
  · simp
  · simp only []
    split
    · simp
    · split
      · simp
      · split <;> simp

theorem CreateSwapHistory_fetch_once (env : Env) (address name : Str)
    (timestampFrom timestampTo : Int) (h : goLen address = 42) :
    (CreateSwapHistory env address name timestampFrom timestampTo).trace.filter isFetch
      = [Event.httpGet (historyURL address)] := by
  have hne : ¬ (goLen address ≠ 42) := by simp [h]
  unfold CreateSwapHistory
  rw [if_neg hne]
  simp only []
  split <;>
    simp [List.filter, isFetch, List.filter_append, filter_isFetch_getSwapHistory,
      filter_isFetch_createCsv, filter_isFetch_loadCSV, filter_isFetch_renderAndSave]

/-! ### C1: validation of the address -/

/-- C1: an address whose Go length is not 42 makes `CreateSwapHistory` exit fatally in the
validation step with no other effect at all (no call to the data source, no file created or
written); an address of length 42 passes validation and the run calls the data source
exactly once, for that address. -/
theorem C1_validation (env : Env) (address name : Str) (timestampFrom timestampTo : Int) :
    (goLen address ≠ 42 →
      CreateSwapHistory env address name timestampFrom timestampTo
        = ⟨[Event.logFatal Fatal.wrongAddressLength], Outcome.exited Fatal.wrongAddressLength⟩)
    ∧ (goLen address = 42 →
      Event.logFatal Fatal.wrongAddressLength
          ∉ (CreateSwapHistory env address name timestampFrom timestampTo).trace
        ∧ (CreateSwapHistory env address name timestampFrom timestampTo).outcome
            ≠ Outcome.exited Fatal.wrongAddressLength
        ∧ (CreateSwapHistory env address name timestampFrom timestampTo).trace.filter isFetch
            = [Event.httpGet
                ("https://api.octodefi.dev/trades/history?wallet=".toList ++ address)]) := by
  constructor
  · intro h
    simp [CreateSwapHistory, h]
  · intro h
    have hne : ¬ (goLen address ≠ 42) := by simp [h]
    refine ⟨?_, ?_, ?_⟩
    · unfold CreateSwapHistory
      rw [if_neg hne]
      simp only []
      intro hmem
      split at hmem
      · simp only [List.mem_cons, List.mem_append] at hmem
        rcases hmem with hm | (hm | hm) | hm
        · simp at hm
        · rcases mem_getSwapHistory _ _ _ hm with h1 | h1 <;> simp at h1
        · rcases mem_createCsv _ _ _ _ hm with h1 | ⟨_, h1⟩ | h1 | ⟨_, h1⟩ <;> simp at h1
        · rcases mem_loadCSV _ _ _ hm with h1 | h1 | h1 <;> simp at h1
      · simp only [List.mem_cons, List.mem_append] at hmem
        rcases hmem with hm | ((hm | hm) | hm) | hm
        · simp at hm
        · rcases mem_getSwapHistory _ _ _ hm with h1 | h1 <;> simp at h1
        · rcases mem_createCsv _ _ _ _ hm with h1 | ⟨_, h1⟩ | h1 | ⟨_, h1⟩ <;> simp at h1
        · rcases mem_loadCSV _ _ _ hm with h1 | h1 | h1 <;> simp at h1
        · rcases mem_renderAndSave _ _ _ _ _ hm with ⟨_, h1⟩ | h1 | h1 | h1 <;> simp at h1
    · unfold CreateSwapHistory
      rw [if_neg hne]
      simp only []
      split
      · rename_i site hsite
        rcases loadCSV_error_site _ _ _ hsite with h1 | h1 <;> simp [h1]
      · exact renderAndSave_outcome _ _ _ _
    · simpa [historyURL] using
        CreateSwapHistory_fetch_once env address name timestampFrom timestampTo h

/-! ### C9: the table body -/

/-- The cell `table` emits for the text `str` with alignment `a`. -/
theorem tableLine_eq (line : List Str) :
    ∀ (pdf : Fpdf) (i : Nat), i + line.length ≤ 5 →
      tableLine pdf i line
        = ⟨pdf ++ List.zipWith
            (fun str a => PdfCall.CellFormat 44 7 str "1".toList 0 a false 0 [])
            line (align.drop i), true⟩ := by
  induction line with
  | nil => intro pdf i _; simp [tableLine]
  | cons str rest ih =>
    intro pdf i h
    simp only [List.length_cons] at h
    have hi : i < 5 := by omega
    rcases i with _ | _ | _ | _ | _ | i
    · simp [tableLine, align, ih _ 1 (by omega)]
    · simp [tableLine, align, ih _ 2 (by omega)]
    · simp [tableLine, align, ih _ 3 (by omega)]
    · simp [tableLine, align, ih _ 4 (by omega)]
    · simp [tableLine, align, ih _ 5 (by omega)]
    · omega

theorem tableLines_eq (tbl : List (List Str)) :
    ∀ (pdf : Fpdf), (∀ line ∈ tbl, line.length ≤ 5) →
      tableLines pdf tbl
        = ⟨pdf ++ (tbl.map (fun line =>
            List.zipWith (fun str a => PdfCall.CellFormat 44 7 str "1".toList 0 a false 0 [])
              line ["L".toList, "C".toList, "L".toList, "C".toList, "L".toList]
            ++ [PdfCall.Ln (-1)])).flatten, true⟩ := by
  induction tbl with
  | nil => intro pdf _; simp [tableLines]
  | cons line rest ih =>
    intro pdf h
    have h1 : line.length ≤ 5 := h line (List.mem_cons_self _ _)
    have h2 : ∀ l ∈ rest, l.length ≤ 5 := fun l hl => h l (List.mem_cons_of_mem _ hl)
    have e := tableLine_eq line pdf 0 (by omega)
    simp only [tableLines, e, if_true, ih _ h2]
    simp [align, List.append_assoc]

theorem countP_isCell_zipWith (line : List Str) :
    ∀ (al : List Str), line.length ≤ al.length →
      (List.zipWith (fun str a => PdfCall.CellFormat 44 7 str "1".toList 0 a false 0 [])
        line al).countP isCell = line.length := by
  induction line with
  | nil => intro al _; simp
  | cons str rest ih =>
    intro al h
    cases al with
    | nil => simp at h
    | cons a al =>
      simp only [List.length_cons] at h
      have ih1 := ih al (by omega)
      simp only [List.zipWith_cons_cons, List.countP_cons, isCell, List.length_cons]
      simpa using ih1

theorem countP_isLn_zipWith (line : List Str) :
    ∀ (al : List Str),
      (List.zipWith (fun str a => PdfCall.CellFormat 44 7 str "1".toList 0 a false 0 [])
        line al).countP isLn = 0 := by
  induction line with
  | nil => intro al; simp
  | cons str rest ih =>
    intro al
    cases al with
    | nil => simp
    | cons a al =>
      have ih1 := ih al
      simp only [List.zipWith_cons_cons, List.countP_cons, isLn]
      simpa using ih1

theorem countP_body (tbl : List (List Str)) (h : ∀ line ∈ tbl, line.length ≤ 5) :
    ((tbl.map (fun line =>
        List.zipWith (fun str a => PdfCall.CellFormat 44 7 str "1".toList 0 a false 0 [])
          line ["L".toList, "C".toList, "L".toList, "C".toList, "L".toList]
        ++ [PdfCall.Ln (-1)])).flatten).countP isCell = (tbl.map List.length).sum
    ∧ ((tbl.map (fun line =>
        List.zipWith (fun str a => PdfCall.CellFormat 44 7 str "1".toList 0 a false 0 [])
          line ["L".toList, "C".toList, "L".toList, "C".toList, "L".toList]
        ++ [PdfCall.Ln (-1)])).flatten).countP isLn = tbl.length := by
  induction tbl with
  | nil => simp
  | cons line rest ih =>
    have h1 : line.length ≤ 5 := h line (List.mem_cons_self _ _)
    have h2 : ∀ l ∈ rest, l.length ≤ 5 := fun l hl => h l (List.mem_cons_of_mem _ hl)
    obtain ⟨ihc, ihl⟩ := ih h2
    constructor
    · simp only [List.map_cons, List.flatten_cons, List.countP_append, ihc, List.sum_cons]
      rw [countP_isCell_zipWith line _ (by simpa using h1)]
      simp [List.countP_cons, isCell]
    · simp only [List.map_cons, List.flatten_cons, List.countP_append, ihl, List.length_cons]
      rw [countP_isLn_zipWith line _]
      simp [List.countP_cons, isLn]
      omega

/-- C9: for rows of at most 5 fields each, `table` first sets the regular 16 pt font and the
white fill, then for each row in order emits one bordered (`"1"`), unfilled 44 x 7 cell per
field, the i-th field with the i-th alignment of `[L, C, L, C, L]`, followed by exactly one
line advance `Ln(-1)`; it runs to its end, the number of cells emitted is the total number
of fields and the number of line advances is the number of rows. -/
theorem C9_table_layout (pdf : Fpdf) (tbl : List (List Str))
    (h : ∀ line ∈ tbl, line.length ≤ 5) :
    table pdf tbl
      = ⟨pdf ++ [PdfCall.SetFont "Times".toList [] 16, PdfCall.SetFillColor 255 255 255]
          ++ (tbl.map (fun line =>
            List.zipWith (fun str a => PdfCall.CellFormat 44 7 str "1".toList 0 a false 0 [])
              line ["L".toList, "C".toList, "L".toList, "C".toList, "L".toList]
            ++ [PdfCall.Ln (-1)])).flatten, true⟩
    ∧ ((table pdf tbl).pdf.drop pdf.length).countP isCell = (tbl.map List.length).sum
    ∧ ((table pdf tbl).pdf.drop pdf.length).countP isLn = tbl.length := by
  have e : table pdf tbl
      = ⟨pdf ++ [PdfCall.SetFont "Times".toList [] 16, PdfCall.SetFillColor 255 255 255]
          ++ (tbl.map (fun line =>
            List.zipWith (fun str a => PdfCall.CellFormat 44 7 str "1".toList 0 a false 0 [])
              line ["L".toList, "C".toList, "L".toList, "C".toList, "L".toList]
            ++ [PdfCall.Ln (-1)])).flatten, true⟩ := by
    unfold table
    rw [tableLines_eq tbl _ h]
  obtain ⟨hc, hl⟩ := countP_body tbl h
  refine ⟨e, ?_, ?_⟩
  · rw [e]
    simp only [List.append_assoc, List.drop_left]
    simp only [List.countP_append, hc]
    simp [List.countP_cons, isCell]
  · rw [e]
    simp only [List.append_assoc, List.drop_left]
    simp only [List.countP_append, hl]
    simp [List.countP_cons, isLn]

/-- Witness for C9: a two-row table, one row of five fields and one of three. -/
theorem C9_table_layout_witness :
    (table [] [["a".toList, "b".toList, "c".toList, "d".toList, "e".toList],
        ["x".toList, "y".toList, "z".toList]]).completed = true
    ∧ ((table [] [["a".toList, "b".toList, "c".toList, "d".toList, "e".toList],
        ["x".toList, "y".toList, "z".toList]]).pdf.drop 0).countP isCell = 8 :=
  ⟨congrArg Drawn.completed
      (C9_table_layout [] [["a".toList, "b".toList, "c".toList, "d".toList, "e".toList],
        ["x".toList, "y".toList, "z".toList]] (by decide)).1,
    (C9_table_layout [] [["a".toList, "b".toList, "c".toList, "d".toList, "e".toList],
        ["x".toList, "y".toList, "z".toList]] (by decide)).2.1⟩

/-! ### C10: the time window -/

/-- C10: the window start is the instant `timestampFrom` seconds after the epoch; the window
end is the clock reading taken at the call when `timestampTo` is 0 (so it is epoch zero only
if the clock itself reads epoch zero) and the instant `timestampTo` seconds after the epoch
otherwise; `CreateSwapHistory` reports exactly this window in its first output line. -/
theorem C10_window (env : Env) (address name : Str) (timestampFrom timestampTo : Int) :
    (resolveWindow (env.clock 0) timestampFrom timestampTo).1 = timeUnix timestampFrom
    ∧ (timestampTo = 0 →
        (resolveWindow (env.clock 0) timestampFrom timestampTo).2 = env.clock 0)
    ∧ (timestampTo = 0 → env.clock 0 ≠ timeUnix 0 →
        (resolveWindow (env.clock 0) timestampFrom timestampTo).2 ≠ timeUnix 0)
    ∧ (timestampTo ≠ 0 →
        (resolveWindow (env.clock 0) timestampFrom timestampTo).2 = timeUnix timestampTo)
    ∧ (goLen address = 42 →
        (CreateSwapHistory env address name timestampFrom timestampTo).trace.head?
          = some (Event.printf ("Creating Swap history. address: ".toList ++ address
              ++ ", name: ".toList ++ name
              ++ ", from: ".toList
              ++ formatDate (env.zone timestampFrom) (timeUnix timestampFrom)
              ++ ", to: ".toList
              ++ formatDate
                  (env.zone (if timestampTo = 0 then env.clock 0 else timeUnix timestampTo).sec)
                  (if timestampTo = 0 then env.clock 0 else timeUnix timestampTo)
              ++ ['\n']))) := by
  refine ⟨rfl, ?_, ?_, ?_, ?_⟩
  · intro h
    simp [resolveWindow, h]
  · intro h hne
    simp [resolveWindow, h, hne]
  · intro h
    have h2 : ¬ (0 = timestampTo) := fun e => h e.symm
    simp [resolveWindow, h2]
  · intro h
    have hne : ¬ (goLen address ≠ 42) := by simp [h]
    unfold CreateSwapHistory
    rw [if_neg hne]
    simp only []
    have hw : (resolveWindow (env.clock 0) timestampFrom timestampTo)
        = (timeUnix timestampFrom,
            if timestampTo = 0 then env.clock 0 else timeUnix timestampTo) := by
      unfold resolveWindow
      by_cases h0 : timestampTo = 0
      · simp [h0]
      · have h2 : ¬ (0 = timestampTo) := fun e => h0 e.symm
        simp [h0, h2]
    split <;> simp [hw, timeUnix]

/-! ### The CSV reader undoes the CSV writer -/

theorem splitAtChar_append (d : Char) (l r : Str) (h : d ∉ l) :
    splitAtChar d (l ++ d :: r) = (l, some r) := by
  induction l with
  | nil => simp [splitAtChar]
  | cons c cs ih =>
    have hc : ¬ (c = d) := fun e => h (by simp [e])
    have hcs : d ∉ cs := fun e => h (List.mem_cons_of_mem _ e)
    simp [splitAtChar, hc, ih hcs]

theorem splitAtChar_none (d : Char) (l : Str) (h : d ∉ l) :
    splitAtChar d l = (l, none) := by
  induction l with
  | nil => simp [splitAtChar]
  | cons c cs ih =>
    have hc : ¬ (c = d) := fun e => h (by simp [e])
    have hcs : d ∉ cs := fun e => h (List.mem_cons_of_mem _ e)
    simp [splitAtChar, hc, ih hcs]

theorem writeQuoted_of_no_quote (f : Str) (h : '"' ∉ f) : writeQuoted f = f := by
  induction f with
  | nil => rfl
  | cons c cs ih =>
    have hc : ¬ (c = '"') := fun e => h (by simp [e])
    have hcs : '"' ∉ cs := fun e => h (List.mem_cons_of_mem _ e)
    simp [writeQuoted, hc, ih hcs]

theorem parseFields_unquoted (fuel : Nat) (line rest : Str) (acc : List Str)
    (h : line.head? ≠ some '"') :
    parseFields (fuel + 1) none line rest acc
      = match splitAtChar ',' line with
        | (field, some l) =>
          if '"' ∈ field then Record.error CsvError.ErrBareQuote
          else parseFields fuel none l rest (acc ++ [field])
        | (_, none) =>
          if '"' ∈ (if line.getLast? = some '\n' then line.dropLast else line) then
            Record.error CsvError.ErrBareQuote
          else Record.ok (acc ++ [if line.getLast? = some '\n' then line.dropLast else line]) rest := by
  conv => lhs; unfold parseFields
  split
  · simp at h
  · rfl

theorem parseFields_quote (fuel : Nat) (l rest : Str) (acc : List Str) :
    parseFields (fuel + 1) none ('"' :: l) rest acc = parseFields fuel (some []) l rest acc := by
  simp [parseFields]

theorem parseFields_close_comma (fuel : Nat) (buf f l rest : Str) (acc : List Str)
    (h : '"' ∉ f) :
    parseFields (fuel + 1) (some buf) (f ++ '"' :: ',' :: l) rest acc
      = parseFields fuel none l rest (acc ++ [buf ++ f]) := by
  simp [parseFields, splitAtChar_append _ _ _ h]

theorem parseFields_close_eol (fuel : Nat) (buf f rest : Str) (acc : List Str)
    (h : '"' ∉ f) :
    parseFields (fuel + 1) (some buf) (f ++ ['"', '\n']) rest acc
      = Record.ok (acc ++ [buf ++ f]) rest := by
  simp [parseFields, splitAtChar_append _ _ _ h]
theorem intercalate_single (sep a : Str) : List.intercalate sep [a] = a := by
  simp [List.intercalate]

theorem intercalate_cons_cons (sep a b : Str) (l : List Str) :
    List.intercalate sep (a :: b :: l) = a ++ sep ++ List.intercalate sep (b :: l) := by
  simp [List.intercalate]

theorem writeField_plain (f : Str) (h : plainField f) :
    (writeField f = f ∧ f.head? ≠ some '"') ∨ writeField f = '"' :: (f ++ ['"']) := by
  have hq : '"' ∉ f := fun hm => (h _ hm).2.1 rfl
  unfold writeField
  by_cases hn : fieldNeedsQuotes f = true
  · right
    simp [hn, writeQuoted_of_no_quote f hq]
  · left
    refine ⟨by simp [hn], ?_⟩
    cases f with
    | nil => simp
    | cons c cs =>
      intro hh
      simp at hh
      exact hq (by simp [hh])

theorem parseFields_line (fs : List Str) :
    ∀ (f rest : Str) (acc : List Str) (fuel : Nat),
      plainField f → (∀ g ∈ fs, plainField g) →
      (List.intercalate [','] ((f :: fs).map writeField) ++ ['\n']).length ≤ fuel →
      parseFields fuel none (List.intercalate [','] ((f :: fs).map writeField) ++ ['\n'])
        rest acc = Record.ok (acc ++ f :: fs) rest := by
  induction fs with
  | nil =>
    intro f rest acc fuel hf _ hfuel
    have hq : '"' ∉ f := fun hm => (hf _ hm).2.1 rfl
    have hc : ',' ∉ f := fun hm => (hf _ hm).1 rfl
    simp only [List.map_cons, List.map_nil, intercalate_single] at hfuel ⊢
    rcases writeField_plain f hf with ⟨e, hhead⟩ | e
    · rw [e] at hfuel ⊢
      obtain ⟨n, rfl⟩ : ∃ n, fuel = n + 1 := ⟨fuel - 1, by simp at hfuel; omega⟩
      have hh : (f ++ ['\n']).head? ≠ some '"' := by
        cases f with
        | nil => simp
        | cons c cs => simpa using hhead
      rw [parseFields_unquoted _ _ _ _ hh]
      have hc2 : ',' ∉ f ++ ['\n'] := by simp [hc]
      rw [splitAtChar_none _ _ hc2]
      simp [hq]
    · rw [e] at hfuel ⊢
      obtain ⟨n, rfl⟩ : ∃ n, fuel = n + 2 := ⟨fuel - 2, by simp at hfuel; omega⟩
      rw [List.cons_append, parseFields_quote]
      have := parseFields_close_eol n [] f rest acc hq
      simpa using this
  | cons g gs ih =>
    intro f rest acc fuel hf hfs hfuel
    have hq : '"' ∉ f := fun hm => (hf _ hm).2.1 rfl
    have hc : ',' ∉ f := fun hm => (hf _ hm).1 rfl
    have hg : plainField g := hfs g (List.mem_cons_self _ _)
    have hgs : ∀ x ∈ gs, plainField x := fun x hx => hfs x (List.mem_cons_of_mem _ hx)
    simp only [List.map_cons, intercalate_cons_cons] at hfuel ⊢
    have ih' := fun rest acc fuel => ih g rest acc fuel hg hgs
    simp only [List.map_cons] at ih'
    rcases writeField_plain f hf with ⟨e, hhead⟩ | e
    · rw [e] at hfuel ⊢
      obtain ⟨n, rfl⟩ : ∃ n, fuel = n + 1 := ⟨fuel - 1, by simp at hfuel; omega⟩
      have hh : (f ++ [','] ++ List.intercalate [','] (writeField g :: gs.map writeField)
          ++ ['\n']).head? ≠ some '"' := by
        cases f with
        | nil => simp
        | cons c cs => simpa using hhead
      rw [parseFields_unquoted _ _ _ _ hh]
      have : f ++ [','] ++ List.intercalate [','] (writeField g :: gs.map writeField) ++ ['\n']
          = f ++ ',' :: (List.intercalate [','] (writeField g :: gs.map writeField) ++ ['\n']) := by
        simp
      rw [this, splitAtChar_append _ _ _ hc]
      simp only [hq, if_false]
      rw [ih' rest (acc ++ [f]) n (by simp at hfuel ⊢; omega)]
      simp
    · rw [e] at hfuel ⊢
      obtain ⟨n, rfl⟩ : ∃ n, fuel = n + 2 := ⟨fuel - 2, by simp at hfuel; omega⟩
      have : '"' :: (f ++ ['"']) ++ [','] ++ List.intercalate [','] (writeField g :: gs.map writeField)
            ++ ['\n']
          = '"' :: (f ++ '"' :: ',' ::
              (List.intercalate [','] (writeField g :: gs.map writeField) ++ ['\n'])) := by
        simp
      rw [this, parseFields_quote, parseFields_close_comma _ _ _ _ _ _ hq]
      rw [ih' rest (acc ++ [[] ++ f]) n (by simp at hfuel ⊢; omega)]
      simp

theorem writeField_no_newline (f : Str) (h : plainField f) :
    '\n' ∉ writeField f ∧ '\r' ∉ writeField f := by
  have hn : '\n' ∉ f := fun hm => (h _ hm).2.2.2 rfl
  have hr : '\r' ∉ f := fun hm => (h _ hm).2.2.1 rfl
  rcases writeField_plain f h with ⟨e, _⟩ | e
  · rw [e]; exact ⟨hn, hr⟩
  · rw [e]; simp [hn, hr]

theorem csvLine_no_newline (row : List Str) (h : ∀ f ∈ row, plainField f) :
    '\n' ∉ List.intercalate [','] (row.map writeField)
      ∧ '\r' ∉ List.intercalate [','] (row.map writeField) := by
  induction row with
  | nil => simp [List.intercalate]
  | cons f fs ih =>
    have hf := writeField_no_newline f (h f (List.mem_cons_self _ _))
    have hfs := ih (fun x hx => h x (List.mem_cons_of_mem _ hx))
    cases fs with
    | nil => simpa [intercalate_single] using hf
    | cons g gs =>
      simp only [List.map_cons, intercalate_cons_cons] at hfs ⊢
      simp [hf.1, hf.2, hfs.1, hfs.2]

theorem csvLine_ne_nil (row : List Str) (h : 2 ≤ row.length) :
    List.intercalate [','] (row.map writeField) ≠ [] := by
  match row, h with
  | f :: g :: gs, _ =>
    simp only [List.map_cons, intercalate_cons_cons]
    simp

theorem dropLastCR_of_not_mem (l : Str) (h : '\r' ∉ l) : dropLastCR l = l := by
  unfold dropLastCR
  have : l.getLast? ≠ some '\r' := by
    intro e
    exact h (List.mem_of_getLast?_eq_some e)
  simp [this]

theorem readLine_csvWrite (row : List Str) (rest : Str) (h : ∀ f ∈ row, plainField f) :
    readLine (csvWrite row ++ rest)
      = (List.intercalate [','] (row.map writeField) ++ ['\n'], rest, false) := by
  obtain ⟨hn, hr⟩ := csvLine_no_newline row h
  unfold readLine csvWrite
  have : List.intercalate [','] (row.map writeField) ++ ['\n'] ++ rest
      = List.intercalate [','] (row.map writeField) ++ '\n' :: rest := by simp
  rw [this, splitAtChar_append _ _ _ hn]
  simp [dropLastCR_of_not_mem _ hr]

theorem readRecord_csvWrite (row : List Str) (rest : Str) (fuel : Nat)
    (h : ∀ f ∈ row, plainField f) (hlen : 2 ≤ row.length) :
    readRecord (fuel + 1) (csvWrite row ++ rest) = Record.ok row rest := by
  unfold readRecord
  rw [readLine_csvWrite row rest h]
  have hne := csvLine_ne_nil row hlen
  simp only []
  have h1 : ¬ (List.intercalate [','] (row.map writeField) ++ ['\n'] = []
      ∨ List.intercalate [','] (row.map writeField) ++ ['\n'] = ['\n']) := by
    intro hh
    rcases hh with hh | hh
    · simp at hh
    · apply hne
      have := congrArg List.length hh
      simp at this
      exact this
  rw [if_neg h1]
  match row, hlen, h with
  | f :: fs, _, h =>
    have := parseFields_line fs f rest []
      ((List.intercalate [','] ((f :: fs).map writeField) ++ ['\n']).length + rest.length + 1)
      (h f (List.mem_cons_self _ _)) (fun g hg => h g (List.mem_cons_of_mem _ hg)) (by omega)
    simpa using this

theorem csvWriteAll_cons (row : List Str) (rows : List (List Str)) :
    csvWriteAll (row :: rows) = csvWrite row ++ csvWriteAll rows := by
  simp [csvWriteAll]

theorem readAllLoop_csvWriteAll (n : Nat) (hn : 2 ≤ n) (rows : List (List Str)) :
    ∀ (fuel fieldsPerRecord : Nat) (acc : List (List Str)),
      (∀ row ∈ rows, row.length = n ∧ ∀ f ∈ row, plainField f) →
      (fieldsPerRecord = 0 ∨ fieldsPerRecord = n) → rows.length < fuel →
      readAllLoop fuel fieldsPerRecord (csvWriteAll rows) acc = Except.ok (acc ++ rows) := by
  induction rows with
  | nil =>
    intro fuel fpr acc _ _ hfuel
    obtain ⟨k, rfl⟩ : ∃ k, fuel = k + 1 := ⟨fuel - 1, by simp at hfuel; omega⟩
    simp [readAllLoop, csvWriteAll, readRecord, readLine, splitAtChar]
  | cons row rows ih =>
    intro fuel fpr acc h hfpr hfuel
    obtain ⟨k, rfl⟩ : ∃ k, fuel = k + 1 := ⟨fuel - 1, by simp at hfuel; omega⟩
    obtain ⟨hlen, hplain⟩ := h row (List.mem_cons_self _ _)
    have hrest : ∀ r ∈ rows, r.length = n ∧ ∀ f ∈ r, plainField f :=
      fun r hr => h r (List.mem_cons_of_mem _ hr)
    rw [csvWriteAll_cons]
    unfold readAllLoop
    rw [readRecord_csvWrite row _ _ hplain (by omega)]
    simp only []
    have hcheck : ¬ (0 < fpr ∧ row.length ≠ fpr) := by
      rcases hfpr with e | e <;> simp [e, hlen]
    rw [if_neg hcheck]
    have hnew : (if fpr = 0 then row.length else fpr) = n := by
      rcases hfpr with e | e
      · simp [e, hlen]
      · have : ¬ (fpr = 0) := by omega
        rw [if_neg this, e]
    rw [hnew, ih k n (acc ++ [row]) hrest (Or.inr rfl) (by simp at hfuel; omega)]
    simp

theorem length_le_csvWriteAll (rows : List (List Str)) :
    rows.length ≤ (csvWriteAll rows).length := by
  induction rows with
  | nil => simp
  | cons row rows ih =>
    rw [csvWriteAll_cons]
    simp [csvWrite]
    omega

/-- Reading back what the writer wrote: records of one common length `n ≥ 2` whose fields
need no escaping come back unchanged. -/
theorem ReadAll_csvWriteAll (n : Nat) (hn : 2 ≤ n) (rows : List (List Str))
    (h : ∀ row ∈ rows, row.length = n ∧ ∀ f ∈ row, plainField f) :
    ReadAll (csvWriteAll rows) = Except.ok rows := by
  unfold ReadAll
  have := readAllLoop_csvWriteAll n hn rows ((csvWriteAll rows).length + 1) 0 [] h (Or.inl rfl)
    (by have := length_le_csvWriteAll rows; omega)
  simpa using this

/-! ### C2 and C5: the records `createCsv` writes, and reading them back -/

theorem filterMap_writtenRecord_map (records : List (List Str)) :
    (records.map Event.csvWrite).filterMap writtenRecord = records := by
  induction records with
  | nil => rfl
  | cons r rs ih => simp [List.filterMap_cons, writtenRecord, ih]

theorem createCsv_written (env : Env) (swaps : Swaps) (path : Str)
    (hcreate : env.osCreate path = true) :
    (createCsv env swaps path).1.filterMap writtenRecord
        = csvHeader :: (createCsvLoop env.zone swaps.Swaps).1
      ∧ (createCsv env swaps path).2
        = some (csvWriteAll (csvHeader :: (createCsvLoop env.zone swaps.Swaps).1)) := by
  unfold createCsv
  simp only [hcreate, not_true_eq_false, if_false]
  refine ⟨?_, trivial⟩
  simp only [List.filterMap_append, filterMap_writtenRecord_map]
  split <;> simp [List.filterMap_cons, writtenRecord]

theorem createCsvLoop_length (zone : Int → Int) (swaps : List Swap) :
    ∀ record ∈ (createCsvLoop zone swaps).1, record.length = 5 := by
  induction swaps with
  | nil => intro r hr; simp [createCsvLoop] at hr
  | cons swap rest ih =>
    intro r hr
    unfold createCsvLoop at hr
    split at hr
    · simp at hr
    · split at hr
      · simp at hr
      · split at hr
        · simp at hr
        · simp only [List.mem_cons] at hr
          rcases hr with e | hm
          · rw [e]; rfl
          · exact ih r hm

/-- C5: whatever `createCsv` wrote (header and body records, also when it stopped early at a
parse error), if no field of those records contains a comma, a quote, a carriage return or
a line feed, then `loadCSV` on the written file returns exactly those records, in order,
field for field. -/
theorem C5_csv_round_trip (env : Env) (swaps : Swaps) (filenameCsv : Str)
    (hcreate : env.osCreate filenameCsv = true)
    (hplain : ∀ record ∈ (createCsv env swaps filenameCsv).1.filterMap writtenRecord,
      ∀ field ∈ record, ∀ c ∈ field, c ≠ ',' ∧ c ≠ '"' ∧ c ≠ '\r' ∧ c ≠ '\n') :
    ∃ content, (createCsv env swaps filenameCsv).2 = some content
      ∧ loadCSV (some content) filenameCsv
        = ([Event.osOpen filenameCsv],
            Except.ok ((createCsv env swaps filenameCsv).1.filterMap writtenRecord)) := by
  obtain ⟨hw, hc⟩ := createCsv_written env swaps filenameCsv hcreate
  refine ⟨_, hc, ?_⟩
  rw [hw] at hplain ⊢
  have hall : ∀ row ∈ csvHeader :: (createCsvLoop env.zone swaps.Swaps).1,
      row.length = 5 ∧ ∀ f ∈ row, plainField f := by
    intro row hrow
    refine ⟨?_, fun f hf => hplain row hrow f hf⟩
    rcases List.mem_cons.mp hrow with e | hm
    · rw [e]; rfl
    · exact createCsvLoop_length _ _ row hm
  unfold loadCSV
  simp only [ReadAll_csvWriteAll 5 (by omega) _ hall]

/-- Witness for C5: the file written for the sample swap reads back unchanged. -/
theorem C5_csv_round_trip_witness :
    ∃ content, (createCsv (sampleEnv ⟨[sampleSwap]⟩) ⟨[sampleSwap]⟩ "out.csv".toList).2
        = some content
      ∧ loadCSV (some content) "out.csv".toList
        = ([Event.osOpen "out.csv".toList],
            Except.ok ((createCsv (sampleEnv ⟨[sampleSwap]⟩) ⟨[sampleSwap]⟩
              "out.csv".toList).1.filterMap writtenRecord)) :=
  C5_csv_round_trip (sampleEnv ⟨[sampleSwap]⟩) ⟨[sampleSwap]⟩ "out.csv".toList rfl
    (by decide!)

/-! ### Every record `ReadAll` returns has the field count of the first -/

theorem table_completed (pdf : Fpdf) (tbl : List (List Str))
    (h : ∀ line ∈ tbl, line.length ≤ 5) : (table pdf tbl).completed = true := by
  unfold table
  rw [tableLines_eq tbl _ h]

/-- When the address is valid, every file can be created, the records written need no
escaping and the canvas reports no error, the run goes through every step after the fetch,
whatever the fetch returned, and returns normally. -/
theorem CreateSwapHistory_completes (env : Env) (address name : Str)
    (timestampFrom timestampTo : Int) (haddr : goLen address = 42)
    (hcreate : ∀ path, env.osCreate path = true)
    (hplain : ∀ record ∈ (createCsvLoop env.zone (getSwapHistory env address).2.Swaps).1,
      ∀ field ∈ record, plainField field)
    (hpdf : ∀ pdf, env.pdfErr pdf = false) (hout : ∀ pdf path, env.outputOk pdf path = true) :
    ∃ (text csvPath pdfPath : Str) (report : Fpdf),
      CreateSwapHistory env address name timestampFrom timestampTo
        = ⟨Event.printf text :: ((getSwapHistory env address).1
            ++ (createCsv env (getSwapHistory env address).2 csvPath).1
            ++ [Event.osOpen csvPath]
            ++ ((image (table (header report csvHeader)
                  (createCsvLoop env.zone (getSwapHistory env address).2.Swaps).1).pdf).map
                Event.pdf
              ++ [Event.pdfErrCheck, Event.pdf (PdfCall.OutputFileAndClose pdfPath)])),
          Outcome.returned⟩ := by
  have hne : ¬ (goLen address ≠ 42) := by simp [haddr]
  unfold CreateSwapHistory
  rw [if_neg hne]
  simp only []
  generalize hk : (if 0 = timestampTo then 1 else 0) = k
  generalize hcsv : "out/swaps/".toList
    ++ formatDate (env.zone (env.clock k).sec) (env.clock k) ++ ['_'] ++ name ++ ".csv".toList
    = csvPath
  generalize hpdfp : "out/swaps/".toList
    ++ formatDate (env.zone (env.clock k).sec) (env.clock k) ++ ['_'] ++ name ++ ".pdf".toList
    = pdfPath
  obtain ⟨hw, hc⟩ := createCsv_written env (getSwapHistory env address).2 csvPath
    (hcreate csvPath)
  have hall : ∀ row ∈ csvHeader :: (createCsvLoop env.zone (getSwapHistory env address).2.Swaps).1,
      row.length = 5 ∧ ∀ f ∈ row, plainField f := by
    intro row hrow
    rcases List.mem_cons.mp hrow with e | hm
    · rw [e]
      refine ⟨rfl, ?_⟩
      simp only [plainField]
      decide
    · exact ⟨createCsvLoop_length _ _ row hm, hplain row hm⟩
  have hload : loadCSV (some (csvWriteAll
      (csvHeader :: (createCsvLoop env.zone (getSwapHistory env address).2.Swaps).1))) csvPath
      = ([Event.osOpen csvPath], Except.ok
          (csvHeader :: (createCsvLoop env.zone (getSwapHistory env address).2.Swaps).1)) := by
    unfold loadCSV
    simp only [ReadAll_csvWriteAll 5 (by omega) _ hall]
  rw [hc]
  simp only [hload]
  have htable := table_completed
    (header (newReport (env.zone (env.clock (k + 1)).sec) (env.clock (k + 1))) csvHeader)
    (createCsvLoop env.zone (getSwapHistory env address).2.Swaps).1
    (fun line hl => by rw [createCsvLoop_length _ _ line hl])
  unfold renderAndSave
  simp only [htable, hpdf, hout, savePDF, Bool.not_true, Bool.false_eq_true, if_false,
    if_true, not_true_eq_false, not_false_eq_true]
  exact ⟨_, csvPath, pdfPath,
    newReport (env.zone (env.clock (k + 1)).sec) (env.clock (k + 1)), rfl⟩

theorem filterMap_writtenRecord_getSwapHistory (env : Env) (address : Str) :
    (getSwapHistory env address).1.filterMap writtenRecord = [] := by
  unfold getSwapHistory
  split
  · simp [writtenRecord]
  · simp [writtenRecord]
  · split <;> simp [writtenRecord]

theorem filterMap_writtenRecord_map_pdf (calls : List PdfCall) :
    (calls.map Event.pdf).filterMap writtenRecord = [] := by
  induction calls with
  | nil => rfl
  | cons c cs ih => simp [List.filterMap_cons, writtenRecord, ih]

theorem osCreate_mem_createCsv (env : Env) (swaps : Swaps) (path : Str) :
    Event.osCreate path ∈ (createCsv env swaps path).1 := by
  unfold createCsv
  split <;> simp

theorem osOpen_mem_loadCSV (file : Option Str) (path : Str) :
    Event.osOpen path ∈ (loadCSV file path).1 := by
  unfold loadCSV
  split
  · simp
  · split <;> simp

/-! ### C6: a non-numeric amount -/

/-- C7 (as amended): for a valid address the data source is called exactly once, and
whatever the fetch gives, the run goes on to the export (`os.Create` of the CSV file) and the
reload (`os.Open` of the same file); when the fetch fails with a transport error or an
unreadable body, the error is printed, the swap collection is empty, and with a working file
system and canvas the run writes a header-only CSV, saves the PDF and returns normally. -/
theorem C7_fetch_failure_not_fatal (env : Env) (address name : Str)
    (timestampFrom timestampTo : Int) (haddr : goLen address = 42) :
    (CreateSwapHistory env address name timestampFrom timestampTo).trace.filter isFetch
        = [Event.httpGet ("https://api.octodefi.dev/trades/history?wallet=".toList ++ address)]
    ∧ (∃ csvPath,
        Event.osCreate csvPath
            ∈ (CreateSwapHistory env address name timestampFrom timestampTo).trace
          ∧ Event.osOpen csvPath
            ∈ (CreateSwapHistory env address name timestampFrom timestampTo).trace)
    ∧ ((env.httpGet ("https://api.octodefi.dev/trades/history?wallet=".toList ++ address)
            = HttpResult.transportError
          ∨ ∃ status,
            env.httpGet ("https://api.octodefi.dev/trades/history?wallet=".toList ++ address)
              = HttpResult.response status none) →
        (∀ path, env.osCreate path = true) → (∀ pdf, env.pdfErr pdf = false) →
        (∀ pdf path, env.outputOk pdf path = true) →
        (CreateSwapHistory env address name timestampFrom timestampTo).outcome
            = Outcome.returned
          ∧ Event.printlnErr
            ∈ (CreateSwapHistory env address name timestampFrom timestampTo).trace
          ∧ (CreateSwapHistory env address name timestampFrom timestampTo).trace.filterMap
                writtenRecord
              = [["Time".toList, "Sold Token".toList, "Sold Amount".toList,
                  "Bought Token".toList, "Bought Amount".toList]]
          ∧ ∃ pdfPath,
            (CreateSwapHistory env address name timestampFrom timestampTo).trace.getLast?
              = some (Event.pdf (PdfCall.OutputFileAndClose pdfPath))) := by
  refine ⟨?_, ?_, ?_⟩
  · simpa [historyURL] using
      CreateSwapHistory_fetch_once env address name timestampFrom timestampTo haddr
  · have hne : ¬ (goLen address ≠ 42) := by simp [haddr]
    unfold CreateSwapHistory
    rw [if_neg hne]
    simp only []
    generalize (if 0 = timestampTo then 1 else 0) = k
    generalize "out/swaps/".toList
      ++ formatDate (env.zone (env.clock k).sec) (env.clock k) ++ ['_'] ++ name ++ ".csv".toList
      = csvPath
    refine ⟨csvPath, ?_⟩
    split
    · refine ⟨?_, ?_⟩
      · simp only [List.mem_cons, List.mem_append]
        exact Or.inr (Or.inl (Or.inr (osCreate_mem_createCsv _ _ _)))
      · simp only [List.mem_cons, List.mem_append]
        exact Or.inr (Or.inr (osOpen_mem_loadCSV _ _))
    · refine ⟨?_, ?_⟩
      · simp only [List.mem_cons, List.mem_append]
        exact Or.inr (Or.inl (Or.inl (Or.inr (osCreate_mem_createCsv _ _ _))))
      · simp only [List.mem_cons, List.mem_append]
        exact Or.inr (Or.inl (Or.inr (osOpen_mem_loadCSV _ _)))
  · intro hfail hcreate hpdf hout
    have hurl : historyURL address
        = "https://api.octodefi.dev/trades/history?wallet=".toList ++ address := rfl
    rw [← hurl] at hfail
    have hfetch : getSwapHistory env address
        = ([Event.httpGet (historyURL address), Event.printlnErr], ⟨[]⟩) := by
      unfold getSwapHistory
      rcases hfail with h | ⟨status, h⟩ <;> rw [h]
    have hplain : ∀ record ∈ (createCsvLoop env.zone (getSwapHistory env address).2.Swaps).1,
        ∀ field ∈ record, plainField field := by
      rw [hfetch]
      simp [createCsvLoop]
    obtain ⟨text, csvPath, pdfPath, report, hrun⟩ := CreateSwapHistory_completes env address
      name timestampFrom timestampTo haddr hcreate hplain hpdf hout
    have hw := (createCsv_written env (getSwapHistory env address).2 csvPath
      (hcreate csvPath)).1
    rw [hrun]
    refine ⟨rfl, ?_, ?_, ⟨pdfPath, ?_⟩⟩
    · rw [hfetch]
      simp
    · simp only [List.filterMap_cons, List.filterMap_append, writtenRecord,
        filterMap_writtenRecord_getSwapHistory, filterMap_writtenRecord_map_pdf, hw]
      rw [hfetch]
      simp [csvHeader, createCsvLoop]
    · rw [List.getLast?_eq_getLast _ (by simp)]
      simp

/-- Witness for C7: the data source is unreachable. -/
theorem C7_fetch_failure_not_fatal_witness :
    (CreateSwapHistory offlineEnv sampleAddress "report".toList 0 0).trace.filter isFetch
        = [Event.httpGet
            ("https://api.octodefi.dev/trades/history?wallet=".toList ++ sampleAddress)]
    ∧ (CreateSwapHistory offlineEnv sampleAddress "report".toList 0 0).outcome
        = Outcome.returned :=
  have h := C7_fetch_failure_not_fatal offlineEnv sampleAddress "report".toList 0 0
    (by decide!)
  ⟨h.1, (h.2.2 (Or.inl rfl) (fun _ => rfl) (fun _ => rfl) (fun _ _ => rfl)).1⟩

/-- Counterexample to C7: with the data source unreachable the run does not stop at the
fetch: it creates and writes the CSV file, reopens it, saves the PDF and returns normally. -/
theorem C7_counterexample :
    offlineEnv.httpGet (historyURL sampleAddress) = HttpResult.transportError
    ∧ (CreateSwapHistory offlineEnv sampleAddress "report".toList 0 0).outcome
        = Outcome.returned
    ∧ Event.osCreate "out/swaps/2023-11-14_report.csv".toList
        ∈ (CreateSwapHistory offlineEnv sampleAddress "report".toList 0 0).trace
    ∧ Event.osOpen "out/swaps/2023-11-14_report.csv".toList
        ∈ (CreateSwapHistory offlineEnv sampleAddress "report".toList 0 0).trace
    ∧ Event.pdf (PdfCall.OutputFileAndClose "out/swaps/2023-11-14_report.pdf".toList)
        ∈ (CreateSwapHistory offlineEnv sampleAddress "report".toList 0 0).trace := by
  decide!

/-! ### C8: tables whose rows differ in length -/

theorem digitChar_isDigit (d : Nat) : (digitChar d).isDigit = true := by
  unfold digitChar
  have h : d % 10 < 10 := Nat.mod_lt _ (by omega)
  generalize d % 10 = k at h
  interval_cases k <;> decide

theorem digitChar_ne_dot (d : Nat) : digitChar d ≠ '.' := by
  intro h
  have := digitChar_isDigit d
  rw [h] at this
  exact absurd this (by decide)

theorem natToStr_ne_nil (n : Nat) : natToStr n ≠ [] := by
  unfold natToStr
  simp only [ne_eq, List.reverse_eq_nil_iff]
  unfold digitsRev
  split_ifs <;> simp

namespace F64

/-! ### Rounding to binary64: bounds -/

theorem log2Level_spec (fuel : Nat) : ∀ k n : Nat, n ≤ fuel + k →
    n < 2 ^ 2 ^ log2Level fuel k n := by
  induction fuel with
  | zero =>
    intro k n h
    simp only [log2Level]
    have h1 : k < 2 ^ k := Nat.lt_two_pow k
    have h2 : 2 ^ k < 2 ^ 2 ^ k := Nat.lt_two_pow (2 ^ k)
    omega
  | succ f ih =>
    intro k n h
    unfold log2Level
    split_ifs with hlt
    · exact hlt
    · exact ih (k + 1) n (by omega)

theorem log2Desc_spec (k : Nat) : ∀ n : Nat, 0 < n → n < 2 ^ 2 ^ k →
    2 ^ log2Desc k n ≤ n ∧ n < 2 ^ (log2Desc k n + 1) := by
  induction k with
  | zero =>
    intro n h1 h2
    simp only [log2Desc]
    simp at h2
    omega
  | succ k ih =>
    intro n h1 h2
    unfold log2Desc
    have hP : 0 < 2 ^ 2 ^ k := by positivity
    have hsq : 2 ^ 2 ^ (k + 1) = 2 ^ 2 ^ k * 2 ^ 2 ^ k := by
      rw [pow_succ, pow_mul, pow_two]
    split_ifs with hge
    · have hm1 : 0 < n / 2 ^ 2 ^ k := Nat.div_pos hge hP
      have hm2 : n / 2 ^ 2 ^ k < 2 ^ 2 ^ k := by
        rw [Nat.div_lt_iff_lt_mul hP, ← hsq]
        exact h2
      obtain ⟨g1, g2⟩ := ih _ hm1 hm2
      have hdm := Nat.div_add_mod n (2 ^ 2 ^ k)
      have hmod := Nat.mod_lt n hP
      generalize n / 2 ^ 2 ^ k = q at *
      generalize n % 2 ^ 2 ^ k = r at *
      generalize log2Desc k q = L at *
      have e1 : ∀ j : Nat, 2 ^ (j + 2 ^ k) = 2 ^ j * 2 ^ 2 ^ k := fun j => pow_add 2 j (2 ^ k)
      have e2 : L + 2 ^ k + 1 = (L + 1) + 2 ^ k := by ring
      rw [e2, e1 L, e1 (L + 1)]
      generalize 2 ^ 2 ^ k = P at *
      constructor
      · calc 2 ^ L * P ≤ q * P := Nat.mul_le_mul_right _ g1
          _ ≤ n := by rw [← hdm]; nlinarith
      · calc n = P * q + r := hdm.symm
          _ < P * (q + 1) := by nlinarith
          _ ≤ P * 2 ^ (L + 1) := Nat.mul_le_mul_left _ g2
          _ = 2 ^ (L + 1) * P := Nat.mul_comm _ _
    · exact ih n h1 (not_le.mp hge)

theorem log2_spec (n : Nat) (h : 0 < n) : 2 ^ log2 n ≤ n ∧ n < 2 ^ (log2 n + 1) :=
  log2Desc_spec _ n h (log2Level_spec n 0 n (by omega))

theorem two_zpow_pos (e : Int) : (0 : ℚ) < (2 : ℚ) ^ e := by positivity

theorem two_zpow_le {a b : Int} (h : a ≤ b) : (2 : ℚ) ^ a ≤ (2 : ℚ) ^ b :=
  zpow_le_zpow_right₀ (by norm_num) h

theorem two_zpow_lt {a b : Int} (h : a < b) : (2 : ℚ) ^ a < (2 : ℚ) ^ b :=
  zpow_lt_zpow_right₀ (by norm_num) h

theorem two_zpow_add (a b : Int) : (2 : ℚ) ^ (a + b) = (2 : ℚ) ^ a * (2 : ℚ) ^ b :=
  zpow_add₀ (by norm_num) a b

theorem two_zpow_toNat (a : Int) (h : 0 ≤ a) : ((2 ^ a.toNat : Nat) : ℚ) = (2 : ℚ) ^ a := by
  obtain ⟨k, rfl⟩ := Int.eq_ofNat_of_zero_le h
  simp

theorem ratLog2_spec (n d : Nat) (hn : 0 < n) (hd : 0 < d) :
    (2 : ℚ) ^ ratLog2 n d ≤ (n : ℚ) / d ∧ (n : ℚ) / d < (2 : ℚ) ^ (ratLog2 n d + 1) := by
  obtain ⟨ha1, ha2⟩ := log2_spec n hn
  obtain ⟨hb1, hb2⟩ := log2_spec d hd
  have hdq : (0 : ℚ) < d := by exact_mod_cast hd
  have hnq : (0 : ℚ) < n := by exact_mod_cast hn
  have qa1 : (2 : ℚ) ^ (log2 n : Int) ≤ n := by
    rw [zpow_natCast]; exact_mod_cast ha1
  have qa2 : (n : ℚ) < (2 : ℚ) ^ ((log2 n : Int) + 1) := by
    have : ((log2 n : Int) + 1) = ((log2 n + 1 : Nat) : Int) := by push_cast; ring
    rw [this, zpow_natCast]; exact_mod_cast ha2
  have qb1 : (2 : ℚ) ^ (log2 d : Int) ≤ d := by
    rw [zpow_natCast]; exact_mod_cast hb1
  have qb2 : (d : ℚ) < (2 : ℚ) ^ ((log2 d : Int) + 1) := by
    have : ((log2 d : Int) + 1) = ((log2 d + 1 : Nat) : Int) := by push_cast; ring
    rw [this, zpow_natCast]; exact_mod_cast hb2
  -- generic bounds: 2^(k0-1) < n/d < 2^(k0+1)
  have hup : (n : ℚ) / d < (2 : ℚ) ^ ((log2 n : Int) - (log2 d : Int) + 1) := by
    rw [div_lt_iff₀ hdq]
    calc (n : ℚ) < (2 : ℚ) ^ ((log2 n : Int) + 1) := qa2
      _ = (2 : ℚ) ^ ((log2 n : Int) - (log2 d : Int) + 1) * (2 : ℚ) ^ (log2 d : Int) := by
          rw [← two_zpow_add]; congr 1; ring
      _ ≤ (2 : ℚ) ^ ((log2 n : Int) - (log2 d : Int) + 1) * d :=
          mul_le_mul_of_nonneg_left qb1 (le_of_lt (two_zpow_pos _))
  have hlo : (2 : ℚ) ^ ((log2 n : Int) - (log2 d : Int) - 1) ≤ (n : ℚ) / d := by
    rw [le_div_iff₀ hdq]
    calc (2 : ℚ) ^ ((log2 n : Int) - (log2 d : Int) - 1) * d
        ≤ (2 : ℚ) ^ ((log2 n : Int) - (log2 d : Int) - 1) * (2 : ℚ) ^ ((log2 d : Int) + 1) :=
          mul_le_mul_of_nonneg_left (le_of_lt qb2) (le_of_lt (two_zpow_pos _))
      _ = (2 : ℚ) ^ (log2 n : Int) := by rw [← two_zpow_add]; congr 1; ring
      _ ≤ n := qa1
  unfold ratLog2
  simp only []
  by_cases hk : (0 : Int) ≤ (log2 n : Int) - (log2 d : Int)
  · rw [if_pos hk]
    by_cases ht : d * 2 ^ ((log2 n : Int) - (log2 d : Int)).toNat ≤ n
    · rw [if_pos ht]
      refine ⟨?_, hup⟩
      rw [le_div_iff₀ hdq, ← two_zpow_toNat _ hk, mul_comm]
      exact_mod_cast ht
    · rw [if_neg ht]
      refine ⟨hlo, ?_⟩
      rw [div_lt_iff₀ hdq]
      have : ((log2 n : Int) - (log2 d : Int) - 1 + 1) = (log2 n : Int) - (log2 d : Int) := by
        ring
      rw [this, ← two_zpow_toNat _ hk, mul_comm]
      exact_mod_cast not_le.mp ht
  · rw [if_neg hk]
    have hk' : (0 : Int) ≤ -((log2 n : Int) - (log2 d : Int)) := by omega
    have hinv : (2 : ℚ) ^ ((log2 n : Int) - (log2 d : Int))
        * ((2 ^ (-((log2 n : Int) - (log2 d : Int))).toNat : Nat) : ℚ) = 1 := by
      rw [two_zpow_toNat _ hk', ← two_zpow_add]
      simp
    have hpos : (0 : ℚ) < ((2 ^ (-((log2 n : Int) - (log2 d : Int))).toNat : Nat) : ℚ) := by
      rw [two_zpow_toNat _ hk']; exact two_zpow_pos _
    by_cases ht : d ≤ n * 2 ^ (-((log2 n : Int) - (log2 d : Int))).toNat
    · rw [if_pos ht]
      refine ⟨?_, hup⟩
      rw [le_div_iff₀ hdq]
      have ht' : (d : ℚ) ≤ (n : ℚ) * ((2 ^ (-((log2 n : Int) - (log2 d : Int))).toNat : Nat) : ℚ) := by
        exact_mod_cast ht
      calc (2 : ℚ) ^ ((log2 n : Int) - (log2 d : Int)) * d
          ≤ (2 : ℚ) ^ ((log2 n : Int) - (log2 d : Int))
            * ((n : ℚ) * ((2 ^ (-((log2 n : Int) - (log2 d : Int))).toNat : Nat) : ℚ)) :=
            mul_le_mul_of_nonneg_left ht' (le_of_lt (two_zpow_pos _))
        _ = n := by
            rw [mul_comm (n : ℚ), ← mul_assoc, hinv, one_mul]
    · rw [if_neg ht]
      refine ⟨hlo, ?_⟩
      rw [div_lt_iff₀ hdq]
      have ht' : (n : ℚ) * ((2 ^ (-((log2 n : Int) - (log2 d : Int))).toNat : Nat) : ℚ) < d := by
        exact_mod_cast not_le.mp ht
      have : ((log2 n : Int) - (log2 d : Int) - 1 + 1) = (log2 n : Int) - (log2 d : Int) := by
        ring
      rw [this]
      calc (n : ℚ) = (2 : ℚ) ^ ((log2 n : Int) - (log2 d : Int))
            * ((n : ℚ) * ((2 ^ (-((log2 n : Int) - (log2 d : Int))).toNat : Nat) : ℚ)) := by
            rw [mul_comm (n : ℚ), ← mul_assoc, hinv, one_mul]
        _ < (2 : ℚ) ^ ((log2 n : Int) - (log2 d : Int)) * d :=
            mul_lt_mul_of_pos_left ht' (two_zpow_pos _)

theorem divRoundEven_le (num den G : Nat) (hden : 0 < den) (h : num ≤ G * den) :
    divRoundEven num den ≤ G := by
  unfold divRoundEven
  have hq : num / den ≤ G := by
    apply Nat.div_le_of_le_mul
    rw [mul_comm]; exact h
  split_ifs with hc
  · -- rounding up needs a positive remainder
    have hr : 0 < num % den := by
      rcases hc with h1 | ⟨h1, _⟩ <;> omega
    by_contra hcon
    have hG : G = num / den := by omega
    have := Nat.div_add_mod num den
    rw [hG] at h
    have h2 : num / den * den = den * (num / den) := Nat.mul_comm _ _
    omega
  · exact hq

theorem le_divRoundEven (num den G : Nat) (hden : 0 < den) (h : G * den ≤ num) :
    G ≤ divRoundEven num den := by
  unfold divRoundEven
  have hq : G ≤ num / den := (Nat.le_div_iff_mul_le hden).mpr h
  split_ifs <;> omega

theorem round_core (neg : Bool) (n d : Nat) (hn : 0 < n) (hd : 0 < d) :
    ∃ Q : Nat,
      (∀ G : Nat, (n : ℚ) / d ≤ (G : ℚ) * (2 : ℚ) ^ (max (ratLog2 n d - 52) (-1074)) → Q ≤ G)
      ∧ (∀ G : Nat, (G : ℚ) * (2 : ℚ) ^ (max (ratLog2 n d - 52) (-1074)) ≤ (n : ℚ) / d → G ≤ Q)
      ∧ round neg n d
        = (if Q = 2 ^ 53 then
            (if 971 < max (ratLog2 n d - 52) (-1074) + 1 then inf neg
              else fin neg (2 ^ 52) (max (ratLog2 n d - 52) (-1074) + 1))
          else (if 971 < max (ratLog2 n d - 52) (-1074) then inf neg
              else fin neg Q (max (ratLog2 n d - 52) (-1074)))) := by
  have hdq : (0 : ℚ) < d := by exact_mod_cast hd
  unfold round
  rw [if_neg (by omega)]
  simp only []
  generalize max (ratLog2 n d - 52) (-1074) = e0
  refine ⟨_, ?_, ?_, rfl⟩
  · intro G hG
    rw [div_le_iff₀ hdq] at hG
    by_cases he : e0 < 0
    · simp only [if_pos he]
      apply divRoundEven_le _ _ _ hd
      have hpos : (0 : Int) ≤ -e0 := by omega
      have h2 : (n : ℚ) * ((2 ^ (-e0).toNat : Nat) : ℚ) ≤ (G : ℚ) * d := by
        rw [two_zpow_toNat _ hpos]
        calc (n : ℚ) * (2 : ℚ) ^ (-e0) ≤ ((G : ℚ) * (2 : ℚ) ^ e0 * d) * (2 : ℚ) ^ (-e0) :=
              mul_le_mul_of_nonneg_right hG (le_of_lt (two_zpow_pos _))
          _ = (G : ℚ) * d * ((2 : ℚ) ^ e0 * (2 : ℚ) ^ (-e0)) := by ring
          _ = (G : ℚ) * d := by rw [← two_zpow_add]; simp
      exact_mod_cast h2
    · simp only [if_neg he]
      apply divRoundEven_le _ _ _ (by positivity)
      have hpos : (0 : Int) ≤ e0 := by omega
      have h2 : (n : ℚ) ≤ (G : ℚ) * ((d : ℚ) * ((2 ^ e0.toNat : Nat) : ℚ)) := by
        rw [two_zpow_toNat _ hpos]
        calc (n : ℚ) ≤ (G : ℚ) * (2 : ℚ) ^ e0 * d := hG
          _ = (G : ℚ) * ((d : ℚ) * (2 : ℚ) ^ e0) := by ring
      exact_mod_cast h2
  · intro G hG
    rw [le_div_iff₀ hdq] at hG
    by_cases he : e0 < 0
    · simp only [if_pos he]
      apply le_divRoundEven _ _ _ hd
      have hpos : (0 : Int) ≤ -e0 := by omega
      have h2 : (G : ℚ) * d ≤ (n : ℚ) * ((2 ^ (-e0).toNat : Nat) : ℚ) := by
        rw [two_zpow_toNat _ hpos]
        calc (G : ℚ) * d = (G : ℚ) * d * ((2 : ℚ) ^ e0 * (2 : ℚ) ^ (-e0)) := by
              rw [← two_zpow_add]; simp
          _ = ((G : ℚ) * (2 : ℚ) ^ e0 * d) * (2 : ℚ) ^ (-e0) := by ring
          _ ≤ (n : ℚ) * (2 : ℚ) ^ (-e0) :=
              mul_le_mul_of_nonneg_right hG (le_of_lt (two_zpow_pos _))
      exact_mod_cast h2
    · simp only [if_neg he]
      apply le_divRoundEven _ _ _ (by positivity)
      have hpos : (0 : Int) ≤ e0 := by omega
      have h2 : (G : ℚ) * ((d : ℚ) * ((2 ^ e0.toNat : Nat) : ℚ)) ≤ (n : ℚ) := by
        rw [two_zpow_toNat _ hpos]
        calc (G : ℚ) * ((d : ℚ) * (2 : ℚ) ^ e0) = (G : ℚ) * (2 : ℚ) ^ e0 * d := by ring
          _ ≤ n := hG
      exact_mod_cast h2

/-- What `round` returns on a positive ratio: the exponent of the grid, the mantissa before
renormalisation and the facts that determine them. -/
theorem round_pos (neg : Bool) (n d : Nat) (hn : 0 < n) (hd : 0 < d) :
    ∃ (e0 : Int) (Q : Nat),
      -1074 ≤ e0 ∧ ratLog2 n d - 52 ≤ e0 ∧ (e0 = ratLog2 n d - 52 ∨ e0 = -1074)
      ∧ (∀ G : Nat, (n : ℚ) / d ≤ (G : ℚ) * (2 : ℚ) ^ e0 → Q ≤ G)
      ∧ (∀ G : Nat, (G : ℚ) * (2 : ℚ) ^ e0 ≤ (n : ℚ) / d → G ≤ Q)
      ∧ Q ≤ 2 ^ 53 ∧ (e0 = ratLog2 n d - 52 → 2 ^ 52 ≤ Q)
      ∧ round neg n d
        = (if Q = 2 ^ 53 then (if 971 < e0 + 1 then inf neg else fin neg (2 ^ 52) (e0 + 1))
          else (if 971 < e0 then inf neg else fin neg Q e0)) := by
  obtain ⟨Q, h1, h2, h3⟩ := round_core neg n d hn hd
  obtain ⟨hk1, hk2⟩ := ratLog2_spec n d hn hd
  refine ⟨max (ratLog2 n d - 52) (-1074), Q, le_max_right _ _, le_max_left _ _, ?_, h1, h2,
    ?_, ?_, h3⟩
  · rcases le_total (ratLog2 n d - 52) (-1074) with h | h
    · right; exact max_eq_right h
    · left; exact max_eq_left h
  · apply h1
    have : (2 : ℚ) ^ (ratLog2 n d + 1)
        ≤ ((2 ^ 53 : Nat) : ℚ) * (2 : ℚ) ^ (max (ratLog2 n d - 52) (-1074)) := by
      have e : ((2 ^ 53 : Nat) : ℚ) = (2 : ℚ) ^ (53 : Int) := by norm_num
      rw [e, ← two_zpow_add]
      apply two_zpow_le
      have := le_max_left (ratLog2 n d - 52) (-1074)
      omega
    exact le_trans (le_of_lt hk2) this
  · intro he
    apply h2
    have e : ((2 ^ 52 : Nat) : ℚ) = (2 : ℚ) ^ (52 : Int) := by norm_num
    rw [e, ← two_zpow_add, he]
    have : (52 : Int) + (ratLog2 n d - 52) = ratLog2 n d := by ring
    rw [this]
    exact hk1

theorem two_zpow_le_imp {a b : Int} (h : (2 : ℚ) ^ a ≤ (2 : ℚ) ^ b) : a ≤ b := by
  by_contra hc
  exact absurd (two_zpow_lt (not_le.mp hc)) (not_lt.mpr h)

theorem natCast_two_pow (k : Nat) : ((2 ^ k : Nat) : ℚ) = (2 : ℚ) ^ (k : Int) := by
  rw [zpow_natCast]; norm_num

/-- Upper bound: a ratio of at most `2^j` rounds to a finite value of at most `2^j`. -/
theorem round_bdd (neg : Bool) (n d : Nat) (hd : 0 < d) (j : Int) (hj1 : -1074 ≤ j)
    (hj2 : j ≤ 1023) (h : (n : ℚ) / d ≤ (2 : ℚ) ^ j) : Bdd (round neg n d) j := by
  by_cases hn : n = 0
  · subst hn
    refine ⟨neg, 0, -1074, by simp [round], ?_⟩
    simp
    exact le_of_lt (two_zpow_pos _)
  · obtain ⟨e0, Q, he1, he2, he3, h1, h2, hQ, hQ2, hr⟩ := round_pos neg n d (by omega) hd
    obtain ⟨hk1, hk2⟩ := ratLog2_spec n d (by omega) hd
    have hkj : ratLog2 n d ≤ j := two_zpow_le_imp (le_trans hk1 h)
    have he0j : e0 ≤ j := by rcases he3 with e | e <;> omega
    have hG : Q ≤ 2 ^ (j - e0).toNat := by
      apply h1
      rw [natCast_two_pow, ← two_zpow_add]
      have : ((j - e0).toNat : Int) + e0 = j := by
        rw [Int.toNat_of_nonneg (by omega)]; ring
      rw [this]
      exact h
    rw [hr]
    by_cases hb : Q = 2 ^ 53
    · rw [if_pos hb]
      rw [hb] at hG
      have h53 : 53 ≤ (j - e0).toNat := by
        by_contra hc
        have : (j - e0).toNat < 53 := by omega
        have := Nat.pow_lt_pow_right (a := 2) (by norm_num) this
        omega
      have h53' : (53 : Int) ≤ j - e0 := by omega
      rw [if_neg (by omega)]
      refine ⟨neg, 2 ^ 52, e0 + 1, rfl, ?_⟩
      have e : ((2 ^ 52 : Nat) : ℚ) = (2 : ℚ) ^ (52 : Int) := by norm_num
      rw [e, ← two_zpow_add]
      exact two_zpow_le (by omega)
    · rw [if_neg hb]
      have h971 : ¬ (971 < e0) := by rcases he3 with e | e <;> omega
      rw [if_neg h971]
      refine ⟨neg, Q, e0, rfl, ?_⟩
      have hGq : (Q : ℚ) ≤ ((2 ^ (j - e0).toNat : Nat) : ℚ) := by exact_mod_cast hG
      calc (Q : ℚ) * (2 : ℚ) ^ e0 ≤ ((2 ^ (j - e0).toNat : Nat) : ℚ) * (2 : ℚ) ^ e0 :=
            mul_le_mul_of_nonneg_right hGq (le_of_lt (two_zpow_pos _))
        _ = (2 : ℚ) ^ j := by
            rw [natCast_two_pow, ← two_zpow_add]
            congr 1
            rw [Int.toNat_of_nonneg (by omega)]; ring

theorem abs_toRat_fin (s : Bool) (m : Nat) (e : Int) :
    |toRat (fin s m e)| = (m : ℚ) * (2 : ℚ) ^ e := by
  have h : (0 : ℚ) ≤ (m : ℚ) * (2 : ℚ) ^ e := by positivity
  cases s
  · simp only [toRat]
    simpa using h
  · simp only [toRat]
    simpa using h

theorem ofScaled_eq_round (neg : Bool) (m : Nat) (e : Int) :
    ∃ n d : Nat, 0 < d ∧ ofScaled neg m e = round neg n d
      ∧ (n : ℚ) / d = (m : ℚ) * (2 : ℚ) ^ e ∧ (0 < m → 0 < n) := by
  unfold ofScaled
  by_cases h : 0 ≤ e
  · rw [if_pos h]
    refine ⟨m * 2 ^ e.toNat, 1, by norm_num, rfl, ?_, ?_⟩
    · push_cast
      rw [div_one]
      have := two_zpow_toNat e h
      push_cast at this
      rw [this]
    · intro hm; positivity
  · rw [if_neg h]
    refine ⟨m, 2 ^ (-e).toNat, by positivity, rfl, ?_, fun hm => hm⟩
    have hpos : (0 : Int) ≤ -e := by omega
    rw [two_zpow_toNat _ hpos, zpow_neg, div_eq_mul_inv, inv_inv]

theorem ofScaled_bdd (neg : Bool) (m : Nat) (e j : Int) (hj1 : -1074 ≤ j) (hj2 : j ≤ 1023)
    (h : (m : ℚ) * (2 : ℚ) ^ e ≤ (2 : ℚ) ^ j) : Bdd (ofScaled neg m e) j := by
  obtain ⟨n, d, hd, hr, hq, _⟩ := ofScaled_eq_round neg m e
  rw [hr]
  exact round_bdd neg n d hd j hj1 hj2 (by rw [hq]; exact h)

theorem Bdd.neg {x : F64} {j : Int} (h : Bdd x j) : Bdd (neg x) j := by
  obtain ⟨s, m, e, hx, hb⟩ := h
  exact ⟨!s, m, e, by rw [hx]; rfl, hb⟩

theorem Bdd.abs_le {x : F64} {j : Int} (h : Bdd x j) : |toRat x| ≤ (2 : ℚ) ^ j := by
  obtain ⟨s, m, e, rfl, hb⟩ := h
  rw [abs_toRat_fin]; exact hb

theorem scale_cast (m : Nat) (e g : Int) (h : g ≤ e) :
    ((m * 2 ^ (e - g).toNat : Nat) : ℚ) * (2 : ℚ) ^ g = (m : ℚ) * (2 : ℚ) ^ e := by
  push_cast
  have := two_zpow_toNat (e - g) (by omega)
  push_cast at this
  rw [this, mul_assoc, ← two_zpow_add]
  congr 2; ring

/-- The sum of two finite values is computed exactly and then rounded once. -/
theorem add_spec (a b : Bool) (m n : Nat) (e f : Int) :
    ∃ (s g : Int), (s : ℚ) * (2 : ℚ) ^ g = toRat (fin a m e) + toRat (fin b n f)
      ∧ add (fin a m e) (fin b n f)
        = if s = 0 then fin (a && b) 0 (-1074) else ofScaled (decide (s < 0)) s.natAbs g := by
  refine ⟨_, min e f, ?_, rfl⟩
  have hm := scale_cast m e (min e f) (min_le_left _ _)
  have hn := scale_cast n f (min e f) (min_le_right _ _)
  simp only [toRat]
  rw [← hm, ← hn]
  cases a <;> cases b <;> simp <;> ring

theorem natAbs_cast_mul (s g : Int) :
    toRat (fin (decide (s < 0)) s.natAbs g) = (s : ℚ) * (2 : ℚ) ^ g := by
  simp only [toRat]
  rcases lt_or_le s 0 with h | h
  · have : ((s.natAbs : Int) : ℚ) = ((-s : Int) : ℚ) := by
      rw [Int.ofNat_natAbs_of_nonpos (le_of_lt h)]
    rw [Int.cast_natCast] at this
    rw [this]; simp [h]
  · have : ((s.natAbs : Int) : ℚ) = (s : ℚ) := by
      rw [Int.natAbs_of_nonneg h]
    rw [Int.cast_natCast] at this
    rw [this]; simp [not_lt.mpr h]

theorem add_bdd_abs (a b : Bool) (m n : Nat) (e f : Int) (j : Int)
    (h1 : -1074 ≤ j) (h2 : j ≤ 1023)
    (h : |toRat (fin a m e) + toRat (fin b n f)| ≤ (2 : ℚ) ^ j) :
    Bdd (add (fin a m e) (fin b n f)) j := by
  obtain ⟨s, g, hs, hadd⟩ := add_spec a b m n e f
  rw [hadd]
  split_ifs with hz
  · refine ⟨_, 0, -1074, rfl, ?_⟩
    simp
    exact le_of_lt (two_zpow_pos _)
  · apply ofScaled_bdd _ _ _ _ h1 h2
    rw [← abs_toRat_fin (decide (s < 0)), natAbs_cast_mul, hs]
    exact h

theorem add_bdd {x y : F64} {j : Int} (hx : Bdd x j) (hy : Bdd y j)
    (h1 : -1074 ≤ j + 1) (h2 : j + 1 ≤ 1023) : Bdd (add x y) (j + 1) := by
  have hax := hx.abs_le
  have hay := hy.abs_le
  obtain ⟨s, m, e, rfl, _⟩ := hx
  obtain ⟨t, n, f, rfl, _⟩ := hy
  apply add_bdd_abs _ _ _ _ _ _ _ h1 h2
  have : (2 : ℚ) ^ (j + 1) = (2 : ℚ) ^ j + (2 : ℚ) ^ j := by
    rw [two_zpow_add]; norm_num; ring
  rw [this]
  exact le_trans (abs_add _ _) (add_le_add hax hay)

theorem sub_bdd {x y : F64} {j : Int} (hx : Bdd x j) (hy : Bdd y j)
    (h1 : -1074 ≤ j + 1) (h2 : j + 1 ≤ 1023) : Bdd (sub x y) (j + 1) :=
  add_bdd hx hy.neg h1 h2

theorem toRat_one : toRat (fin false (2 ^ 52) (-52)) = 1 := by
  simp only [toRat, Bool.false_eq_true, if_false, one_mul]
  norm_num

end F64

/-! ## Amount normalisation -/

section Amounts

open F64

end Amounts

/-! ### C4: rounding to significant digits -/

end OctoReport
